import Mathlib

/-!
# Tina: a stackful coroutine primitive (`tina.h`)

Two layers are embedded.

* The assembly routines `tina_init_stack` and `tina_swap` (ARM EABI, amd64
  System V, amd64 Win64) are lists of instructions, one per `asm("...")` line
  of the source, run on a small register/stack machine.
* The C functions `tina_init`, `tina_yield` and `tina_context` are a
  transition system over the coroutine header and the control point at which
  the coroutine side is suspended.
-/

namespace Tina

/-! ## The machine -/

/-- Register names, as written in the source. One name space serves the three
targets (`r8`..`r11` exist on both ARM and amd64); a machine belongs to one
target. `xmm i` and `d i` are the vector / floating point registers, which the
source never mentions. -/
inductive Reg
  | rax | rbx | rcx | rdx | rsi | rdi | rbp | rsp
  | r0 | r1 | r2 | r3 | r4 | r5 | r6 | r7
  | r8 | r9 | r10 | r11 | r12 | r13 | r14 | r15
  | sp | lr
  | xmm (i : Nat)
  | d (i : Nat)
  deriving DecidableEq

/-- What a push or pop instruction can name: a register, or a word of the
thread control structure addressed through `gs` (Win64). -/
inductive Slot
  | reg (r : Reg)
  | gs (off : Nat)
  deriving DecidableEq

/-- Machine state. Memory maps a byte address to the word stored there; every
access of the routines is word sized. Register and memory contents are
naturals; copies copy, arithmetic wraps at the word size. -/
structure Machine where
  reg : Reg → Nat
  gs : Nat → Nat
  mem : Nat → Nat
  pc : Nat

/-- The compilation targets of the source (`#if` branches). -/
inductive Target
  | arm_eabi
  | amd64_unix
  | win64
  deriving DecidableEq

/-- Bytes per machine word. -/
def Target.wordBytes : Target → Nat
  | .arm_eabi => 4
  | _ => 8

/-- Number of values of a machine word. -/
def Target.modulus (t : Target) : Nat := 2 ^ (8 * t.wordBytes)

/-- The stack pointer register. -/
def Target.spReg : Target → Reg
  | .arm_eabi => .sp
  | _ => .rsp

/-- First argument register (`ARG0`; `r0` on ARM). -/
def ARG0 : Target → Reg
  | .arm_eabi => .r0
  | .amd64_unix => .rdi
  | .win64 => .rcx

/-- Second argument register (`ARG1`; `r1` on ARM). -/
def ARG1 : Target → Reg
  | .arm_eabi => .r1
  | .amd64_unix => .rsi
  | .win64 => .rdx

/-- Third argument register (`ARG2`; `r2` on ARM). -/
def ARG2 : Target → Reg
  | .arm_eabi => .r2
  | .amd64_unix => .rdx
  | .win64 => .r8

/-- Fourth argument register (`ARG3`; `r3` on ARM). -/
def ARG3 : Target → Reg
  | .arm_eabi => .r3
  | .amd64_unix => .rcx
  | .win64 => .r9

/-- Return value register (`RET`; `r0` on ARM). -/
def RET : Target → Reg
  | .arm_eabi => .r0
  | _ => .rax

/-- The instructions the source uses. -/
inductive Instr
  /-- Instruction `push r`, `push gs:off` -/
  | push (x : Slot)
  /-- Instruction `push 0` -/
  | pushImm (n : Nat)
  /-- Instruction `pop r`, `pop gs:off` -/
  | pop (x : Slot)
  /-- ARM `push {..}`: the listed registers, lowest register at the lowest address -/
  | pushList (rs : List Reg)
  /-- ARM `pop {..}` -/
  | popList (rs : List Reg)
  /-- Instruction `mov [base], src`, `str src, [base]` -/
  | store (base src : Reg)
  /-- Instruction `mov dst, [base]`, `ldr dst, [base]` -/
  | load (dst base : Reg)
  /-- Instruction `mov dst, src` -/
  | mov (dst src : Reg)
  /-- Instruction `mov dst, #n` -/
  | movImm (dst : Reg) (n : Nat)
  /-- Instruction `mov gs:off, src` -/
  | movGs (off : Nat) (src : Reg)
  /-- Instruction `and dst, ~n` (the immediate is complemented within the word) -/
  | andNot (dst : Reg) (n : Nat)
  /-- Instruction `jmp target`, `b target` -/
  | jmp (target : Nat)
  /-- Instruction `call target`; `next` is the address of the instruction after the call -/
  | call (target next : Nat)
  /-- Instruction `ret` -/
  | ret
  /-- Instruction `bx r` -/
  | bx (r : Reg)
  deriving DecidableEq

/-- Does the instruction transfer control? -/
def Instr.isTransfer : Instr → Bool
  | .jmp _ => true
  | .call _ _ => true
  | .ret => true
  | .bx _ => true
  | _ => false

namespace Machine

/-- Write a register. -/
def setReg (s : Machine) (r : Reg) (v : Nat) : Machine :=
  { s with reg := fun x => if x = r then v else s.reg x }

/-- Write a memory word. -/
def setMem (s : Machine) (a v : Nat) : Machine :=
  { s with mem := fun x => if x = a then v else s.mem x }

/-- Write a word of the thread control structure. -/
def setGs (s : Machine) (off v : Nat) : Machine :=
  { s with gs := fun x => if x = off then v else s.gs x }

/-- Write the program counter. -/
def setPc (s : Machine) (v : Nat) : Machine :=
  { s with pc := v }

/-- Read a push/pop operand. -/
def read (s : Machine) : Slot → Nat
  | .reg r => s.reg r
  | .gs off => s.gs off

/-- Write a push/pop operand. -/
def write (s : Machine) : Slot → Nat → Machine
  | .reg r, v => s.setReg r v
  | .gs off, v => s.setGs off v

end Machine

/-- Push a value: decrement the stack pointer by a word, store at the new top. -/
def pushVal (t : Target) (v : Nat) (s : Machine) : Machine :=
  let sp1 := (s.reg t.spReg + t.modulus - t.wordBytes) % t.modulus
  (s.setReg t.spReg sp1).setMem sp1 v

/-- Push an operand. -/
def push1 (t : Target) (x : Slot) (s : Machine) : Machine :=
  pushVal t (s.read x) s

/-- Pop into an operand: load from the top, increment the stack pointer, write
the operand. -/
def pop1 (t : Target) (x : Slot) (s : Machine) : Machine :=
  let v := s.mem (s.reg t.spReg)
  (s.setReg t.spReg ((s.reg t.spReg + t.wordBytes) % t.modulus)).write x v

/-- Push a sequence of operands, first to last. -/
def pushAll (t : Target) (xs : List Slot) (s : Machine) : Machine :=
  xs.foldl (fun m x => push1 t x m) s

/-- Pop a sequence of operands, first to last. -/
def popAll (t : Target) (xs : List Slot) (s : Machine) : Machine :=
  xs.foldl (fun m x => pop1 t x m) s

/-- One instruction. -/
def exec (t : Target) : Instr → Machine → Machine
  | .push x, s => push1 t x s
  | .pushImm n, s => pushVal t n s
  | .pop x, s => pop1 t x s
  | .pushList rs, s => pushAll t (rs.reverse.map Slot.reg) s
  | .popList rs, s => popAll t (rs.map Slot.reg) s
  | .store base src, s => s.setMem (s.reg base) (s.reg src)
  | .load dst base, s => s.setReg dst (s.mem (s.reg base))
  | .mov dst src, s => s.setReg dst (s.reg src)
  | .movImm dst n, s => s.setReg dst n
  | .movGs off src, s => s.setGs off (s.reg src)
  | .andNot dst n, s => s.setReg dst (s.reg dst &&& (t.modulus - 1 - n))
  | .jmp target, s => s.setPc target
  | .call target next, s => (pushVal t next s).setPc target
  | .ret, s =>
      (s.setReg t.spReg ((s.reg t.spReg + t.wordBytes) % t.modulus)).setPc
        (s.mem (s.reg t.spReg))
  | .bx r, s => s.setPc (s.reg r)

/-- Run straight-line code up to and including its first control transfer. -/
def run (t : Target) : List Instr → Machine → Machine
  | [], s => s
  | i :: rest, s => if i.isTransfer then exec t i s else run t rest (exec t i s)

/-! ## The routines `tina_init_stack` and `tina_swap` -/

open Reg in
/-- ARM EABI `tina_init_stack` (source lines 80-92). `tina_context` is the
address of that symbol. -/
def arm_tina_init_stack (tina_context : Nat) : List Instr :=
  [ .pushList [r4, r5, r6, r7, r8, r9, r10, r11, lr],
    .store r2 sp,
    .andNot r3 0xF,
    .mov sp r3,
    .movImm lr 0,
    .jmp tina_context ]

open Reg in
/-- ARM EABI `tina_swap` (source lines 95-109). -/
def arm_tina_swap : List Instr :=
  [ .pushList [r4, r5, r6, r7, r8, r9, r10, r11, lr],
    .mov r3 sp,
    .load sp r2,
    .store r2 r3,
    .popList [r4, r5, r6, r7, r8, r9, r10, r11, lr],
    .mov r0 r1,
    .bx lr ]

open Reg in
/-- System V amd64 `tina_init_stack` (source lines 125-136). -/
def amd64_tina_init_stack (tina_context : Nat) : List Instr :=
  [ .push (.reg rbp),
    .push (.reg rbx),
    .push (.reg r12),
    .push (.reg r13),
    .push (.reg r14),
    .push (.reg r15),
    .store rdx rsp,
    .andNot rcx 0xF,
    .mov rsp rcx,
    .pushImm 0,
    .jmp tina_context ]

open Reg in
/-- System V amd64 `tina_swap` (source lines 138-155). -/
def amd64_tina_swap : List Instr :=
  [ .push (.reg rbp),
    .push (.reg rbx),
    .push (.reg r12),
    .push (.reg r13),
    .push (.reg r14),
    .push (.reg r15),
    .mov rax rsp,
    .load rsp rdx,
    .store rdx rax,
    .pop (.reg r15),
    .pop (.reg r14),
    .pop (.reg r13),
    .pop (.reg r12),
    .pop (.reg rbx),
    .pop (.reg rbp),
    .mov rax rsi,
    .ret ]

open Reg in
/-- Win64 `tina_init_stack` (source lines 164-191). `after_call` is the address
of the `ret` that follows `call tina_context`. The three `mov gs:0x8, ..` are
as in the source. -/
def win64_tina_init_stack (tina_context after_call : Nat) : List Instr :=
  [ .push (.reg rbp),
    .push (.reg rbx),
    .push (.reg rsi),
    .push (.reg rdi),
    .push (.reg r12),
    .push (.reg r13),
    .push (.reg r14),
    .push (.reg r15),
    .push (.gs 0x8),
    .push (.gs 0x10),
    .push (.gs 0x1478),
    .store r8 rsp,
    .andNot r9 0xF,
    .mov rsp r9,
    .movGs 0x8 r9,
    .movGs 0x8 rcx,
    .movGs 0x8 rcx,
    .pushImm 0,
    .call tina_context after_call,
    .ret ]

open Reg in
/-- Win64 `tina_swap` (source lines 193-220). -/
def win64_tina_swap : List Instr :=
  [ .push (.reg rbp),
    .push (.reg rbx),
    .push (.reg rsi),
    .push (.reg rdi),
    .push (.reg r12),
    .push (.reg r13),
    .push (.reg r14),
    .push (.reg r15),
    .push (.gs 0x8),
    .push (.gs 0x10),
    .push (.gs 0x1478),
    .mov rax rsp,
    .load rsp r8,
    .store r8 rax,
    .pop (.gs 0x1478),
    .pop (.gs 0x10),
    .pop (.gs 0x8),
    .pop (.reg r15),
    .pop (.reg r14),
    .pop (.reg r13),
    .pop (.reg r12),
    .pop (.reg rdi),
    .pop (.reg rsi),
    .pop (.reg rbx),
    .pop (.reg rbp),
    .mov rax rdx,
    .ret ]

/-- Addresses of the code the routines branch to. -/
structure Layout where
  /-- address of `tina_context` -/
  tina_context : Nat
  /-- address of the instruction after `call tina_context` (Win64) -/
  after_call : Nat

/-- `tina_init_stack` of a target. -/
def tina_init_stack (t : Target) (L : Layout) : List Instr :=
  match t with
  | .arm_eabi => arm_tina_init_stack L.tina_context
  | .amd64_unix => amd64_tina_init_stack L.tina_context
  | .win64 => win64_tina_init_stack L.tina_context L.after_call

/-- `tina_swap` of a target. -/
def tina_swap (t : Target) : List Instr :=
  match t with
  | .arm_eabi => arm_tina_swap
  | .amd64_unix => amd64_tina_swap
  | .win64 => win64_tina_swap

/-- The operands a routine pushes before anything else, in push order (an ARM
register list stores its last register first). -/
def pushed : List Instr → List Slot
  | .push x :: rest => x :: pushed rest
  | .pushList rs :: rest => rs.reverse.map Slot.reg ++ pushed rest
  | _ => []

/-- The operands a routine pops, in pop order. -/
def popped : List Instr → List Slot
  | [] => []
  | .pop x :: rest => x :: popped rest
  | .popList rs :: rest => rs.map Slot.reg ++ popped rest
  | _ :: rest => popped rest

/-! ## Frames and suspended contexts -/

/-- Number of words `tina_swap` pushes on entry. -/
def frame_words (t : Target) : Nat := (pushed (tina_swap t)).length

/-- The return address a routine sees on entry: the word at the stack top on
amd64, `lr` on ARM. -/
def return_address (t : Target) (s : Machine) : Nat :=
  match t with
  | .arm_eabi => s.reg .lr
  | _ => s.mem (s.reg .rsp)

/-- The stack pointer once the routine entered in state `s` has returned: its
value before the call (on amd64 the call pushed the return address). -/
def sp_after_return (t : Target) (s : Machine) : Nat :=
  match t with
  | .arm_eabi => s.reg .sp
  | _ => s.reg .rsp + 8

/-- Walking down from address `top`, each word of `m` holds the value the
corresponding operand of `xs` had in `a`. -/
def holds_frame (t : Target) (a m : Machine) : List Slot → Nat → Prop
  | [], _ => True
  | x :: rest, top =>
      m.mem (top - t.wordBytes) = a.read x ∧ holds_frame t a m rest (top - t.wordBytes)

/-- Machine `m` holds the context that entered a switch in state `a`,
suspended at cursor `p`: the cursor holds the stack pointer left after the
pushes, the frame holds the pushed operands, and (amd64) the return address is
still above it. -/
def Suspended (t : Target) (a m : Machine) (p : Nat) : Prop :=
  m.mem p = a.reg t.spReg - frame_words t * t.wordBytes ∧
  holds_frame t a m (pushed (tina_swap t)) (a.reg t.spReg) ∧
  return_address t { a with mem := m.mem } = return_address t a

/-- The stack top `tina_init_stack` computes from its fourth argument
(`and ARG3, ~0xF`). -/
def stack_top (t : Target) (s : Machine) : Nat :=
  s.reg (ARG3 t) &&& (t.modulus - 1 - 0xF)

/-- Number of words `tina_init_stack` pushes on the new stack before control
reaches `tina_context` (`push 0`, and the return address of `call`). -/
def boot_words : Target → Nat
  | .arm_eabi => 0
  | .amd64_unix => 1
  | .win64 => 2

/-- The return address `tina_context` sees when `tina_init_stack` enters it:
the pushed 0 on System V, `lr` = 0 on ARM; on Win64 the address after the
`call`. -/
def entry_return_address (t : Target) (L : Layout) : Nat :=
  match t with
  | .win64 => L.after_call
  | _ => 0

/-- The alignment of the stack pointer at the entry of a function: on amd64
(both conventions) `rsp + 8` is a multiple of 16, on ARM `sp` is a multiple
of 8. -/
def entry_aligned (t : Target) (sp : Nat) : Prop :=
  match t with
  | .arm_eabi => sp % 8 = 0
  | _ => (sp + 8) % 16 = 0

/-- Address `x` lies outside the words `[lo, hi)`. -/
def outside (x lo hi : Nat) : Prop := x < lo ∨ hi ≤ x

/-! ## The parts of the routines -/

/-- Scratch register `tina_swap` keeps the old stack pointer in. -/
def TMP : Target → Reg
  | .arm_eabi => .r3
  | _ => .rax

/-- Run instructions one after the other (no control transfer among them). -/
def steps (t : Target) (is : List Instr) (s : Machine) : Machine :=
  is.foldl (fun m i => exec t i m) s

/-- The pushes a routine starts with. -/
def prologue : List Instr → List Instr
  | .push x :: rest => .push x :: prologue rest
  | .pushList rs :: rest => .pushList rs :: prologue rest
  | _ => []

/-- The pops that undo `prologue`. -/
def epilogue (t : Target) : List Instr :=
  match t with
  | .arm_eabi => [.popList [.r4, .r5, .r6, .r7, .r8, .r9, .r10, .r11, .lr]]
  | _ => (pushed (tina_swap t)).reverse.map .pop

/-- The middle of `tina_swap`: exchange the stack pointer with the cursor. -/
def exchange (t : Target) : List Instr :=
  [.mov (TMP t) t.spReg, .load t.spReg (ARG2 t), .store (ARG2 t) (TMP t)]

/-- The last instruction of `tina_swap`. -/
def last_instr : Target → Instr
  | .arm_eabi => .bx .lr
  | _ => .ret

/-- The end of `tina_init_stack`, after the cursor is set: switch to the new
stack and enter `tina_context`. -/
def boot (t : Target) (L : Layout) : List Instr :=
  (tina_init_stack t L).drop ((prologue (tina_swap t)).length + 1)

/-- Ranges `[lo1, hi1)` and `[lo2, hi2)` share no address. -/
def apart (lo1 hi1 lo2 hi2 : Nat) : Prop := hi1 ≤ lo1 ∨ hi1 ≤ lo2 ∨ hi2 ≤ lo1

/-! ## The C layer: `tina_init`, `tina_yield`, `tina_context` -/

/-- Where the coroutine side is suspended while the resumer runs: the
`tina_yield` call of `tina_context` (or of the body) that the saved stack
pointer `_sp` leads back to. -/
inductive Pc (S : Type)
  /-- Suspended in `tina_yield(coro, (uintptr_t)coro)`, line 57 -/
  | line57
  /-- Suspended in a `tina_yield` called by the body (inside line 59); `s` is the state of the body -/
  | in_body (s : S)
  /-- Suspended in `tina_yield(coro, value)`, line 63 -/
  | line63
  /-- Suspended in `tina_yield(coro, 0)`, line 68 -/
  | line68

/-- The header `struct tina`. Pointers are addresses, 0 is NULL. `_sp` is
given by the context it designates. -/
structure tina (S : Type) where
  user_data : Nat
  name : Nat
  error_handler : Nat
  running : Bool
  _sp : Pc S

/-- How a run of the body ends: in a call `tina_yield(coro, v)`, leaving the
body in state `s`, or by returning `r`. -/
inductive BodyStep (S : Type)
  | yield (v : Nat) (s : S)
  | ret (r : Nat)

/-- The word a run of the body hands over. -/
def BodyStep.value {S : Type} : BodyStep S → Nat
  | .yield v _ => v
  | .ret r => r

/-- A body function (`tina_func`): `call coro value` runs `body(coro, value)`
to its first `tina_yield` or its return; `resume s value` continues from state
`s` when the pending `tina_yield` returns `value`. -/
structure Body (S : Type) where
  call : Nat → Nat → BodyStep S
  resume : S → Nat → BodyStep S

/-- Calls made to user code. -/
inductive Event
  /-- Call `body(coro, value)` -/
  | body (coro value : Nat)
  /-- Call `error_handler(coro, message)` of the handler at address `handler` -/
  | error_handler (handler coro : Nat) (message : String)
  deriving DecidableEq

/-- One coroutine as its resumer sees it. -/
structure World (S : Type) where
  /-- the handle: address of the header -/
  coro : Nat
  /-- the header `*coro` -/
  hdr : tina S
  /-- the argument `body` of `tina_context` -/
  body : Body S
  /-- the argument `sp` that `tina_init` gave `tina_init_stack` -/
  sp : Nat
  /-- calls to user code so far -/
  events : List Event

/-- Lines 61-63 of `tina_context`, or the body's own yield: what the resumer
gets back once the body has run. -/
def after_body {S : Type} (w : World S) : BodyStep S → World S × Nat
  | .yield v s => ({ w with hdr := { w.hdr with _sp := .in_body s } }, v)
  | .ret value => ({ w with hdr := { w.hdr with running := false, _sp := .line63 } }, value)

/-- One turn of the loop at lines 66-69 of `tina_context`. -/
def dead_loop {S : Type} (w : World S) : World S × Nat :=
  let w1 :=
    if w.hdr.error_handler ≠ 0 then
      { w with events := w.events ++
          [.error_handler w.hdr.error_handler w.coro "Attempted to resume a dead coroutine."] }
    else w
  ({ w1 with hdr := { w1.hdr with _sp := .line68 } }, 0)

/-- The function `tina_context` (lines 59-69), continued from the
`tina_yield` call in which it is suspended, with `value` the result of that
call, up to its next `tina_yield`, whose argument is the result here: line 59
calls the body with the first value and the handle; when the body has returned,
lines 61-63; after that the loop of lines 66-69. -/
def tina_context {S : Type} (w : World S) (value : Nat) : World S × Nat :=
  match w.hdr._sp with
  | .line57 =>
      after_body { w with events := w.events ++ [.body w.coro value] } (w.body.call w.coro value)
  | .in_body s => after_body w (w.body.resume s value)
  | .line63 => dead_loop w
  | .line68 => dead_loop w

/-- The resumer calls `tina_yield(coro, value)` (lines 51-53): `tina_swap`
switches to the context the cursor `coro->_sp` holds, which is the coroutine
side suspended inside `tina_context`, with `value` as the result of its pending
`tina_yield`; the resumer continues when the coroutine side calls `tina_yield`
in turn, and gets that call's argument as its result. -/
def tina_yield {S : Type} (w : World S) (value : Nat) : World S × Nat :=
  tina_context w value

/-- The start of `tina_context` (line 57), entered from `tina_init_stack`:
`tina_yield(coro, (uintptr_t)coro)` switches back to the caller of
`tina_init_stack` with the handle as the value, and leaves the coroutine side
suspended in that call. -/
def tina_context_enter {S : Type} (w : World S) : World S × Nat :=
  ({ w with hdr := { w.hdr with _sp := .line57 } }, w.coro)

/-- The function `tina_init` (lines 45-49): the header is overwritten (`old`
is what the buffer held) and `tina_init_stack` is called with `buffer + size`;
it enters `tina_context`, and what line 57 yields back is the result. The
field `_sp`, null in the literal of line 47, is not read before
`tina_init_stack` and line 57 have set it.

The header and the coroutine's stack are kept apart here, so this is what the
code does when the stack that `tina_init_stack` sets up does not reach the
header (`stack_clear`) and `buffer + size` fits a machine word; for a region so
small that the stack lands on the header the source does not determine the
outcome, and nothing is claimed of it. -/
def tina_init {S : Type} (old : tina S) (buffer size : Nat) (body : Body S) (user_data : Nat) :
    World S × Nat :=
  let coro := buffer
  let hdr : tina S :=
    { old with user_data := user_data, name := 0, error_handler := 0, running := true }
  tina_context_enter
    { coro := coro, hdr := hdr, body := body, sp := buffer + size, events := [] }

/-- The resumer stores into the settable field `error_handler`. -/
def set_error_handler {S : Type} (w : World S) (h : Nat) : World S :=
  { w with hdr := { w.hdr with error_handler := h } }

/-- The resumer calls `tina_yield` once per value of `xs`; what it observes is,
per call, the result and the `running` flag read right after. -/
def resumes {S : Type} (w : World S) : List Nat → World S × List (Nat × Bool)
  | [] => (w, [])
  | x :: xs =>
      let r := tina_yield w x
      let rest := resumes r.1 xs
      (rest.1, (r.2, r.1.hdr.running) :: rest.2)

/-- The body, started in `st`, yields `ys` in order when resumed with `xs`, and
then returns `r`. -/
def yields_then_returns {S : Type} (b : Body S) : BodyStep S → List Nat → List Nat → Nat → Prop
  | .ret r', [], [], r => r' = r
  | .yield v s, x :: xs, y :: ys, r => v = y ∧ yields_then_returns b (b.resume s x) xs ys r
  | _, _, _, _ => False

/-- The body alone, without any coroutine machinery: a run of it has ended in
`st`, and it is resumed with the values `xs` one after the other. The result is
how its last run ended, or `none` when it had returned before all of `xs` were
given. -/
def body_continue {S : Type} (b : Body S) : BodyStep S → List Nat → Option (BodyStep S)
  | st, [] => some st
  | .yield _ s, x :: xs => body_continue b (b.resume s x) xs
  | .ret _, _ :: _ => none

/-- Did the run of the body end in a yield? (Not when it returned, and not when
the body had returned before.) -/
def yielded {S : Type} : Option (BodyStep S) → Bool
  | some (.yield _ _) => true
  | _ => false

/-- What the body alone says the `running` flag is after each resume: a run of
the body has ended in `st` (first flag) and the body is resumed with `xs` (one
flag each): true after a run that ended in a yield, false after the run in
which the body returned and after every later resume. -/
def body_flags {S : Type} (b : Body S) : BodyStep S → List Nat → List Bool
  | .yield _ _, [] => [true]
  | .ret _, [] => [false]
  | .yield _ s, x :: xs => true :: body_flags b (b.resume s x) xs
  | .ret _, _ :: xs => false :: false :: List.replicate xs.length false

/-- The body of the scenario: receives `x`, yields `x*2`, receives `y`,
returns `y+1` (in `uintptr_t` arithmetic of 64 bits). -/
def scenario_body : Body Unit where
  call := fun _ x => .yield (x * 2 % 2 ^ 64) ()
  resume := fun _ y => .ret ((y + 1) % 2 ^ 64)

/-! ## States and bodies used in the examples -/

/-- A machine about to run a routine: arguments `a0`..`a3`, stack pointer
`sp`, thread control structure `gs`, everything else zero. -/
def call_state (t : Target) (a0 a1 a2 a3 sp : Nat) (gs : Nat → Nat) : Machine :=
  { reg := fun r =>
      if r = ARG0 t then a0 else if r = ARG1 t then a1 else if r = ARG2 t then a2
      else if r = ARG3 t then a3 else if r = t.spReg then sp else 0,
    gs := gs,
    mem := fun _ => 0,
    pc := 0 }

/-- Stack bounds of a Win64 thread before any coroutine runs: stack base
(`gs:0x8`), stack limit (`gs:0x10`), deallocation stack (`gs:0x1478`). -/
def thread_bounds : Nat → Nat := fun off =>
  if off = 0x8 then 0x80000 else if off = 0x10 then 0x70000 else if off = 0x1478 then 0x60000
  else 0

/-- Code addresses used in the examples. -/
def demo_layout : Layout := { tina_context := 0x401000, after_call := 0x401234 }

/-- The registers a callee must preserve across a call: System V amd64
(`rbx`, `rbp`, `r12`-`r15`), Win64 (`rbx`, `rbp`, `rsi`, `rdi`, `r12`-`r15`,
`xmm6`-`xmm15`), ARM EABI (`r4`-`r11`, and `d8`-`d15` with hardware floating
point). -/
def callee_saved (t : Target) (hard_float : Bool) : List Reg :=
  match t with
  | .amd64_unix => [.rbx, .rbp, .r12, .r13, .r14, .r15]
  | .win64 => [.rbx, .rbp, .rsi, .rdi, .r12, .r13, .r14, .r15] ++
      (List.range 10).map (fun i => .xmm (6 + i))
  | .arm_eabi => [.r4, .r5, .r6, .r7, .r8, .r9, .r10, .r11] ++
      (if hard_float then (List.range 8).map (fun i => .d (8 + i)) else [])

/-- A resumer on System V about to enter a switch: handle 0x10000, value 5,
cursor at 0x10020, stack top argument 0x11000, its own stack pointer at 0x7f000
with the return address 0x400123 on top; the cursor holds 0x10e00. -/
def demo_resumer : Machine :=
  ((call_state .amd64_unix 0x10000 5 0x10020 0x11000 0x7f000 thread_bounds).setMem
    0x7f000 0x400123).setMem 0x10020 0x10e00

/-- The coroutine side on System V about to switch back, with memory `mem`:
its stack pointer is at 0x10f00, the cursor argument is 0x10020, the value
is 77, every other register holds 99. -/
def demo_coroutine (mem : Nat → Nat) : Machine :=
  { reg := fun r =>
      if r = .rsp then 0x10f00 else if r = .rdx then 0x10020 else if r = .rsi then 77 else 99,
    gs := thread_bounds,
    mem := mem,
    pc := 0 }

/-- The state in which `tina_init` calls `tina_init_stack` on Win64 for a
buffer of 0x1000 bytes at 0x10000: `coro` = 0x10000, `body` at 0x402000,
`sp_loc` = 0x10020, `sp` = 0x11000; the thread runs on its own stack at
0x7f000 with the bounds `thread_bounds`. -/
def demo_win64_init : Machine :=
  call_state .win64 0x10000 0x402000 0x10020 0x11000 0x7f000 thread_bounds

/-- Some earlier content of a buffer: the header of a dead coroutine. -/
def stale_hdr (S : Type) : tina S :=
  { user_data := 3, name := 7, error_handler := 9, running := false, _sp := .line68 }

/-- Did the last resume come back because the body yielded? -/
def in_body {S : Type} (w : World S) : Bool :=
  match w.hdr._sp with
  | .in_body _ => true
  | _ => false

/-- Has the body returned? -/
def dead {S : Type} (w : World S) : Bool :=
  match w.hdr._sp with
  | .line63 => true
  | .line68 => true
  | _ => false

/-! ## Facts about the machine -/

theorem wordBytes_pos (t : Target) : 0 < t.wordBytes := by
  cases t <;> decide

theorem wordBytes_lt_modulus (t : Target) : t.wordBytes < t.modulus := by
  cases t <;> decide

theorem sub_wrap {x k W : Nat} (h1 : k ≤ x) (h2 : x < W) : (x + W - k) % W = x - k := by
  have h : x + W - k = (x - k) + W := by omega
  rw [h, Nat.add_mod_right, Nat.mod_eq_of_lt (by omega)]

@[simp]
theorem read_reg (s : Machine) (r : Reg) : s.read (.reg r) = s.reg r := rfl

@[simp]
theorem read_gs (s : Machine) (o : Nat) : s.read (.gs o) = s.gs o := rfl

@[simp]
theorem setReg_reg (s : Machine) (r : Reg) (v : Nat) (x : Reg) :
    (s.setReg r v).reg x = if x = r then v else s.reg x := rfl

@[simp]
theorem setReg_mem (s : Machine) (r : Reg) (v : Nat) : (s.setReg r v).mem = s.mem := rfl

@[simp]
theorem setReg_gs (s : Machine) (r : Reg) (v : Nat) : (s.setReg r v).gs = s.gs := rfl

@[simp]
theorem setReg_pc (s : Machine) (r : Reg) (v : Nat) : (s.setReg r v).pc = s.pc := rfl

@[simp]
theorem setMem_reg (s : Machine) (a v : Nat) : (s.setMem a v).reg = s.reg := rfl

@[simp]
theorem setMem_mem (s : Machine) (a v x : Nat) :
    (s.setMem a v).mem x = if x = a then v else s.mem x := rfl

@[simp]
theorem setMem_gs (s : Machine) (a v : Nat) : (s.setMem a v).gs = s.gs := rfl

@[simp]
theorem setMem_pc (s : Machine) (a v : Nat) : (s.setMem a v).pc = s.pc := rfl

@[simp]
theorem setGs_reg (s : Machine) (a v : Nat) : (s.setGs a v).reg = s.reg := rfl

@[simp]
theorem setGs_mem (s : Machine) (a v : Nat) : (s.setGs a v).mem = s.mem := rfl

@[simp]
theorem setGs_gs (s : Machine) (a v x : Nat) :
    (s.setGs a v).gs x = if x = a then v else s.gs x := rfl

@[simp]
theorem setGs_pc (s : Machine) (a v : Nat) : (s.setGs a v).pc = s.pc := rfl

@[simp]
theorem setPc_reg (s : Machine) (v : Nat) : (s.setPc v).reg = s.reg := rfl

@[simp]
theorem setPc_mem (s : Machine) (v : Nat) : (s.setPc v).mem = s.mem := rfl

@[simp]
theorem setPc_gs (s : Machine) (v : Nat) : (s.setPc v).gs = s.gs := rfl

@[simp]
theorem setPc_pc (s : Machine) (v : Nat) : (s.setPc v).pc = v := rfl

theorem return_address_arm (s : Machine) : return_address .arm_eabi s = s.reg .lr := rfl

theorem return_address_amd64 (s : Machine) :
    return_address .amd64_unix s = s.mem (s.reg .rsp) := rfl

theorem return_address_win64 (s : Machine) :
    return_address .win64 s = s.mem (s.reg .rsp) := rfl

theorem write_read_same (s : Machine) (x : Slot) (v : Nat) : (s.write x v).read x = v := by
  cases x <;> simp [Machine.write]

theorem write_read_other (s : Machine) (x y : Slot) (v : Nat) (h : y ≠ x) :
    (s.write x v).read y = s.read y := by
  cases x <;> cases y <;> simp_all [Machine.write]

@[simp]
theorem write_mem (s : Machine) (x : Slot) (v : Nat) : (s.write x v).mem = s.mem := by
  cases x <;> rfl

@[simp]
theorem write_pc (s : Machine) (x : Slot) (v : Nat) : (s.write x v).pc = s.pc := by
  cases x <;> rfl

theorem write_reg_other (s : Machine) (x : Slot) (v : Nat) (r : Reg) (h : Slot.reg r ≠ x) :
    (s.write x v).reg r = s.reg r := by
  have := write_read_other s x (.reg r) v h
  simpa using this

/-- A push leaves every operand but the stack pointer as it was. -/
theorem push1_read (t : Target) (x y : Slot) (s : Machine) (h : y ≠ .reg t.spReg) :
    (push1 t x s).read y = s.read y := by
  cases y with
  | reg r =>
    have hr : r ≠ t.spReg := fun e => h (by rw [e])
    simp [push1, pushVal, hr]
  | gs o => simp [push1, pushVal]

theorem push1_pc (t : Target) (x : Slot) (s : Machine) : (push1 t x s).pc = s.pc := rfl

theorem push1_sp (t : Target) (x : Slot) (s : Machine)
    (h1 : t.wordBytes ≤ s.reg t.spReg) (h2 : s.reg t.spReg < t.modulus) :
    (push1 t x s).reg t.spReg = s.reg t.spReg - t.wordBytes := by
  simp [push1, pushVal, sub_wrap h1 h2]

theorem push1_mem (t : Target) (x : Slot) (s : Machine) (a : Nat)
    (h1 : t.wordBytes ≤ s.reg t.spReg) (h2 : s.reg t.spReg < t.modulus) :
    (push1 t x s).mem a = if a = s.reg t.spReg - t.wordBytes then s.read x else s.mem a := by
  simp [push1, pushVal, sub_wrap h1 h2]

theorem pushAll_cons (t : Target) (x : Slot) (xs : List Slot) (s : Machine) :
    pushAll t (x :: xs) s = pushAll t xs (push1 t x s) := rfl

theorem pushAll_read (t : Target) (xs : List Slot) (y : Slot) (s : Machine)
    (h : y ≠ .reg t.spReg) : (pushAll t xs s).read y = s.read y := by
  induction xs generalizing s with
  | nil => rfl
  | cons x rest ih => rw [pushAll_cons, ih, push1_read t x y s h]

theorem pushAll_pc (t : Target) (xs : List Slot) (s : Machine) : (pushAll t xs s).pc = s.pc := by
  induction xs generalizing s with
  | nil => rfl
  | cons x rest ih => rw [pushAll_cons, ih, push1_pc]

theorem pushAll_sp (t : Target) (xs : List Slot) (s : Machine)
    (h1 : xs.length * t.wordBytes ≤ s.reg t.spReg) (h2 : s.reg t.spReg < t.modulus) :
    (pushAll t xs s).reg t.spReg = s.reg t.spReg - xs.length * t.wordBytes := by
  induction xs generalizing s with
  | nil => simp [pushAll]
  | cons x rest ih =>
    simp only [List.length_cons, Nat.add_mul, Nat.one_mul] at h1 ⊢
    have hs := push1_sp t x s (by omega) h2
    rw [pushAll_cons, ih _ (by omega) (by omega), hs]
    omega

/-- Pushes write only the words between the new and the old stack pointer. -/
theorem pushAll_mem_outside (t : Target) (xs : List Slot) (s : Machine) (a : Nat)
    (h1 : xs.length * t.wordBytes ≤ s.reg t.spReg) (h2 : s.reg t.spReg < t.modulus)
    (ha : outside a (s.reg t.spReg - xs.length * t.wordBytes) (s.reg t.spReg)) :
    (pushAll t xs s).mem a = s.mem a := by
  induction xs generalizing s with
  | nil => rfl
  | cons x rest ih =>
    simp only [List.length_cons, Nat.add_mul, Nat.one_mul, outside] at h1 ha
    have hw := wordBytes_pos t
    have hs := push1_sp t x s (by omega) h2
    rw [pushAll_cons, ih _ (by omega) (by omega) (by unfold outside; omega),
      push1_mem t x s a (by omega) h2, if_neg (by omega)]

/-- After the pushes the frame holds the pushed operands. -/
theorem pushAll_holds_frame (t : Target) (xs : List Slot) (s a : Machine) (m : Machine)
    (hsp : Slot.reg t.spReg ∉ xs)
    (h1 : xs.length * t.wordBytes ≤ s.reg t.spReg) (h2 : s.reg t.spReg < t.modulus)
    (hread : ∀ x ∈ xs, s.read x = a.read x)
    (hm : ∀ x, ¬ outside x (s.reg t.spReg - xs.length * t.wordBytes) (s.reg t.spReg) →
      m.mem x = (pushAll t xs s).mem x) :
    holds_frame t a m xs (s.reg t.spReg) := by
  induction xs generalizing s with
  | nil => trivial
  | cons x rest ih =>
    simp only [List.length_cons, Nat.add_mul, Nat.one_mul, outside] at h1 hm
    have hw := wordBytes_pos t
    have hs := push1_sp t x s (by omega) h2
    simp only [List.mem_cons, not_or] at hsp
    refine ⟨?_, ?_⟩
    · rw [hm _ (by omega), pushAll_cons,
        pushAll_mem_outside t rest _ _ (by omega) (by omega) (by unfold outside; omega),
        push1_mem t x s _ (by omega) h2, if_pos rfl]
      exact hread x (List.mem_cons_self _ _)
    · rw [← hs]
      apply ih (push1 t x s) (fun h => hsp.2 h) (by omega) (by omega)
      · intro y hy
        rw [push1_read t x y s (fun e => hsp.2 (e ▸ hy))]
        exact hread y (List.mem_cons_of_mem _ hy)
      · intro y hy
        rw [hm y (by unfold outside at hy; omega), pushAll_cons]

theorem popAll_snoc (t : Target) (xs : List Slot) (x : Slot) (s : Machine) :
    popAll t (xs ++ [x]) s = pop1 t x (popAll t xs s) := by
  simp [popAll, List.foldl_append]

/-- Pops write no memory and leave the program counter. -/
theorem popAll_mem (t : Target) (xs : List Slot) (s : Machine) :
    (popAll t xs s).mem = s.mem ∧ (popAll t xs s).pc = s.pc := by
  induction xs generalizing s with
  | nil => exact ⟨rfl, rfl⟩
  | cons x rest ih =>
    have := ih (pop1 t x s)
    simpa [popAll, pop1] using this

/-- Popping, in reverse order, a frame that holds the operands of `a` below
`top` gives them back their values in `a` and sets the stack pointer to `top`. -/
theorem popAll_restore (t : Target) (xs : List Slot) (a m : Machine) (top : Nat)
    (hsp : Slot.reg t.spReg ∉ xs)
    (h1 : xs.length * t.wordBytes ≤ top) (h2 : top < t.modulus)
    (hm : m.reg t.spReg = top - xs.length * t.wordBytes)
    (hf : holds_frame t a m xs top) :
    (popAll t xs.reverse m).reg t.spReg = top ∧
    (∀ x ∈ xs, (popAll t xs.reverse m).read x = a.read x) ∧
    (∀ y, y ∉ xs → y ≠ .reg t.spReg → (popAll t xs.reverse m).read y = m.read y) := by
  induction xs generalizing top with
  | nil => exact ⟨by simpa [popAll] using hm, by simp, fun y _ _ => rfl⟩
  | cons x rest ih =>
    simp only [List.length_cons, Nat.add_mul, Nat.one_mul] at h1 hm
    have hw := wordBytes_pos t
    simp only [List.mem_cons, not_or] at hsp
    obtain ⟨hx, hrest⟩ := hf
    obtain ⟨i1, i2, i3⟩ := ih (top - t.wordBytes) (fun h => hsp.2 h) (by omega) (by omega)
      (by omega) hrest
    rw [List.reverse_cons, popAll_snoc]
    have hmem := (popAll_mem t rest.reverse m).1
    have hv : (popAll t rest.reverse m).mem ((popAll t rest.reverse m).reg t.spReg) = a.read x := by
      rw [hmem, i1, hx]
    have hnew : ((popAll t rest.reverse m).reg t.spReg + t.wordBytes) % t.modulus = top := by
      rw [i1, Nat.mod_eq_of_lt (by omega)]; omega
    have hxsp : Slot.reg t.spReg ≠ x := fun e => hsp.1 e
    refine ⟨?_, ?_, ?_⟩
    · simp only [pop1, hnew]
      rw [write_reg_other _ _ _ _ hxsp]
      simp
    · intro y hy
      simp only [pop1, hnew, hv]
      by_cases hyx : y = x
      · rw [hyx, write_read_same]
      · rw [write_read_other _ _ _ _ hyx]
        have hyr : y ∈ rest := by
          rcases List.mem_cons.1 hy with h | h
          · exact absurd h hyx
          · exact h
        have hysp : y ≠ .reg t.spReg := fun e => hsp.2 (e ▸ hyr)
        have := i2 y hyr
        cases y with
        | reg r =>
          have hr : r ≠ t.spReg := fun e => hysp (by rw [e])
          simpa [hr] using this
        | gs o => simpa using this
    · intro y hy hysp
      simp only [List.mem_cons, not_or] at hy
      simp only [pop1, hnew, hv]
      rw [write_read_other _ _ _ _ hy.1]
      have := i3 y hy.2 hysp
      cases y with
      | reg r =>
        have hr : r ≠ t.spReg := fun e => hysp (by rw [e])
        simpa [hr] using this
      | gs o => simpa using this

/-! ## The shape of the routines -/

theorem pushed_tina_swap (t : Target) :
    pushed (tina_swap t) =
      match t with
      | .arm_eabi => [.reg .lr, .reg .r11, .reg .r10, .reg .r9, .reg .r8, .reg .r7, .reg .r6,
          .reg .r5, .reg .r4]
      | .amd64_unix => [.reg .rbp, .reg .rbx, .reg .r12, .reg .r13, .reg .r14, .reg .r15]
      | .win64 => [.reg .rbp, .reg .rbx, .reg .rsi, .reg .rdi, .reg .r12, .reg .r13, .reg .r14,
          .reg .r15, .gs 0x8, .gs 0x10, .gs 0x1478] := by
  cases t <;>
    simp only [tina_swap, arm_tina_swap, amd64_tina_swap, win64_tina_swap, pushed,
      List.reverse_cons, List.reverse_nil, List.nil_append, List.cons_append, List.map,
      List.append_nil]

theorem prologue_tina_swap (t : Target) :
    prologue (tina_swap t) =
      match t with
      | .arm_eabi => [.pushList [.r4, .r5, .r6, .r7, .r8, .r9, .r10, .r11, .lr]]
      | _ => (pushed (tina_swap t)).map .push := by
  cases t <;>
    simp only [pushed_tina_swap, tina_swap, arm_tina_swap, amd64_tina_swap, win64_tina_swap,
      prologue, List.map]

theorem tina_swap_shape (t : Target) :
    tina_swap t = prologue (tina_swap t) ++ (exchange t ++ (epilogue t ++
      [.mov (RET t) (ARG1 t), last_instr t])) := by
  rw [prologue_tina_swap]
  cases t <;>
    simp only [epilogue, pushed_tina_swap, List.map, List.reverse_cons,
      List.reverse_nil, List.nil_append, List.cons_append, List.append_nil, exchange,
      last_instr, RET, ARG1, ARG2, TMP, Target.spReg, tina_swap, arm_tina_swap,
      amd64_tina_swap, win64_tina_swap]

theorem tina_init_stack_shape (t : Target) (L : Layout) :
    tina_init_stack t L = prologue (tina_swap t) ++ (.store (ARG2 t) t.spReg :: boot t L) := by
  rw [boot, prologue_tina_swap]
  cases t <;>
    simp only [ pushed_tina_swap, List.map, List.length, List.drop,
      List.nil_append, List.cons_append, List.append_nil, ARG2, Target.spReg,
      tina_init_stack, arm_tina_init_stack, amd64_tina_init_stack, win64_tina_init_stack,
      Nat.reduceAdd]

theorem run_append (t : Target) (pre rest : List Instr) (s : Machine)
    (h : ∀ i ∈ pre, i.isTransfer = false) :
    run t (pre ++ rest) s = run t rest (steps t pre s) := by
  induction pre generalizing s with
  | nil => rfl
  | cons i pre ih =>
    have hi := h i (List.mem_cons_self _ _)
    have e : run t (i :: (pre ++ rest)) s = run t (pre ++ rest) (exec t i s) := by
      simp only [run, hi, Bool.false_eq_true, if_false]
    rw [List.cons_append, e, ih _ (fun j hj => h j (List.mem_cons_of_mem _ hj))]
    rfl

theorem steps_map_push (t : Target) (xs : List Slot) (s : Machine) :
    steps t (xs.map .push) s = pushAll t xs s := by
  induction xs generalizing s with
  | nil => rfl
  | cons x rest ih => simpa [steps, pushAll, exec] using ih (push1 t x s)

theorem steps_map_pop (t : Target) (xs : List Slot) (s : Machine) :
    steps t (xs.map .pop) s = popAll t xs s := by
  induction xs generalizing s with
  | nil => rfl
  | cons x rest ih => simpa [steps, popAll, exec] using ih (pop1 t x s)

theorem steps_prologue (t : Target) (s : Machine) :
    steps t (prologue (tina_swap t)) s = pushAll t (pushed (tina_swap t)) s := by
  cases t
  · simp only [prologue_tina_swap, pushed_tina_swap, steps, List.foldl, exec, List.map,
      List.reverse_cons, List.reverse_nil, List.nil_append, List.cons_append]
  · simp only [prologue_tina_swap]; exact steps_map_push _ _ s
  · simp only [prologue_tina_swap]; exact steps_map_push _ _ s

theorem steps_epilogue (t : Target) (s : Machine) :
    steps t (epilogue t) s = popAll t (pushed (tina_swap t)).reverse s := by
  cases t
  · simp only [epilogue, pushed_tina_swap, steps, List.foldl, exec, List.map,
      List.reverse_cons, List.reverse_nil, List.nil_append, List.cons_append]
  · simp only [epilogue]; exact steps_map_pop _ _ s
  · simp only [epilogue]; exact steps_map_pop _ _ s

theorem prologue_not_transfer (t : Target) : ∀ i ∈ prologue (tina_swap t), i.isTransfer = false := by
  cases t <;> simp [prologue_tina_swap, pushed_tina_swap, Instr.isTransfer]

theorem epilogue_not_transfer (t : Target) : ∀ i ∈ epilogue t, i.isTransfer = false := by
  cases t <;> simp [epilogue, pushed_tina_swap, Instr.isTransfer]

/-- What `tina_swap` computes: push, exchange, pop, pass the value, return. -/
theorem run_tina_swap (t : Target) (s : Machine) :
    run t (tina_swap t) s =
      exec t (last_instr t) (exec t (.mov (RET t) (ARG1 t))
        (popAll t (pushed (tina_swap t)).reverse
          (steps t (exchange t) (pushAll t (pushed (tina_swap t)) s)))) := by
  have e : run t (tina_swap t) s = run t (prologue (tina_swap t) ++ (exchange t ++ (epilogue t ++
      [.mov (RET t) (ARG1 t), last_instr t]))) s := by rw [← tina_swap_shape]
  rw [e, run_append _ _ _ _ (prologue_not_transfer t), steps_prologue,
    run_append _ _ _ _ (by intro i hi; simp [exchange] at hi; rcases hi with h | h | h <;> rw [h] <;> rfl),
    run_append _ _ _ _ (epilogue_not_transfer t), steps_epilogue]
  cases t <;> simp only [run, last_instr, Instr.isTransfer, Bool.false_eq_true, if_false, if_true]

/-- What `tina_init_stack` computes: push, set the cursor, boot. -/
theorem run_tina_init_stack (t : Target) (L : Layout) (s : Machine) :
    run t (tina_init_stack t L) s =
      run t (boot t L) (exec t (.store (ARG2 t) t.spReg) (pushAll t (pushed (tina_swap t)) s)) := by
  have e : run t (tina_init_stack t L) s =
      run t (prologue (tina_swap t) ++ (.store (ARG2 t) t.spReg :: boot t L)) s := by
    rw [← tina_init_stack_shape]
  rw [e, run_append _ _ _ _ (prologue_not_transfer t), steps_prologue]
  simp only [run, Instr.isTransfer, Bool.false_eq_true, if_false]

theorem sp_not_pushed (t : Target) : Slot.reg t.spReg ∉ pushed (tina_swap t) := by
  cases t <;> simp [pushed_tina_swap, Target.spReg]

theorem arg1_not_pushed (t : Target) : Slot.reg (ARG1 t) ∉ pushed (tina_swap t) := by
  cases t <;> simp [pushed_tina_swap, ARG1]

theorem ret_not_pushed (t : Target) : Slot.reg (RET t) ∉ pushed (tina_swap t) := by
  cases t <;> simp [pushed_tina_swap, RET]

theorem frame_words_eq (t : Target) : frame_words t = (pushed (tina_swap t)).length := rfl

/-- The state after the exchange in the middle of `tina_swap`. -/
theorem steps_exchange (t : Target) (m : Machine) :
    (∀ r, (steps t (exchange t) m).reg r =
      if r = t.spReg then m.mem (m.reg (ARG2 t))
      else if r = TMP t then m.reg t.spReg else m.reg r) ∧
    (∀ x, (steps t (exchange t) m).mem x =
      if x = m.reg (ARG2 t) then m.reg t.spReg else m.mem x) ∧
    (steps t (exchange t) m).gs = m.gs ∧ (steps t (exchange t) m).pc = m.pc := by
  cases t <;>
    simp [steps, exchange, exec, ARG2, TMP, Target.spReg]

/-- Memory after `tina_swap`: the pushed frame, and the cursor holding the
stack pointer left after the pushes. -/
theorem run_tina_swap_mem (t : Target) (s : Machine) (x : Nat)
    (h1 : frame_words t * t.wordBytes ≤ s.reg t.spReg) (h2 : s.reg t.spReg < t.modulus) :
    (run t (tina_swap t) s).mem x =
      if x = s.reg (ARG2 t) then s.reg t.spReg - frame_words t * t.wordBytes
      else (pushAll t (pushed (tina_swap t)) s).mem x := by
  have e : (run t (tina_swap t) s).mem =
      (steps t (exchange t) (pushAll t (pushed (tina_swap t)) s)).mem := by
    rw [run_tina_swap, ← (popAll_mem t (pushed (tina_swap t)).reverse _).1]
    cases t <;> rfl
  have ha : (pushAll t (pushed (tina_swap t)) s).reg (ARG2 t) = s.reg (ARG2 t) := by
    have := pushAll_read t (pushed (tina_swap t)) (.reg (ARG2 t)) s (by cases t <;> decide)
    simpa using this
  rw [e, (steps_exchange t _).2.1, ha, pushAll_sp t _ s h1 h2]
  rfl

theorem holds_frame_congr (t : Target) (a m m' : Machine) (xs : List Slot) (top : Nat)
    (h1 : xs.length * t.wordBytes ≤ top)
    (h : ∀ x, ¬ outside x (top - xs.length * t.wordBytes) top → m'.mem x = m.mem x)
    (hf : holds_frame t a m xs top) : holds_frame t a m' xs top := by
  induction xs generalizing top with
  | nil => trivial
  | cons x rest ih =>
    simp only [List.length_cons, Nat.add_mul, Nat.one_mul, outside] at h1 h
    have hw := wordBytes_pos t
    refine ⟨?_, ?_⟩
    · rw [h _ (by omega)]; exact hf.1
    · apply ih _ (by omega) _ hf.2
      intro y hy
      exact h y (by unfold outside at hy; omega)

/-- A memory that agrees with the pushes of `a` on the frame and the return
slot, and whose cursor holds the stack pointer left by the pushes, holds the
suspended context of `a`. -/
theorem suspended_of_mem (t : Target) (a m : Machine) (p : Nat)
    (h1 : frame_words t * t.wordBytes ≤ a.reg t.spReg) (h2 : a.reg t.spReg < t.modulus)
    (hcur : m.mem p = a.reg t.spReg - frame_words t * t.wordBytes)
    (hm : ∀ x, ¬ outside x (a.reg t.spReg - frame_words t * t.wordBytes)
        (a.reg t.spReg + t.wordBytes) → m.mem x = (pushAll t (pushed (tina_swap t)) a).mem x) :
    Suspended t a m p := by
  have hw := wordBytes_pos t
  refine ⟨hcur, ?_, ?_⟩
  · apply pushAll_holds_frame t _ a a m (sp_not_pushed t) h1 h2 (fun _ _ => rfl)
    intro x hx
    exact hm x (by unfold outside at hx ⊢; rw [frame_words_eq]; omega)
  · have e : m.mem (a.reg t.spReg) = a.mem (a.reg t.spReg) := by
      rw [hm _ (by unfold outside; omega),
        pushAll_mem_outside t _ a _ h1 h2 (by unfold outside; omega)]
    cases t
    · rfl
    · exact e
    · exact e

/-- The end of `tina_swap`: the value is passed, control returns. -/
theorem finish_facts (t : Target) (m : Machine) :
    (exec t (last_instr t) (exec t (.mov (RET t) (ARG1 t)) m)).mem = m.mem ∧
    (exec t (last_instr t) (exec t (.mov (RET t) (ARG1 t)) m)).reg (RET t) = m.reg (ARG1 t) ∧
    (∀ y ∈ pushed (tina_swap t),
      (exec t (last_instr t) (exec t (.mov (RET t) (ARG1 t)) m)).read y = m.read y) ∧
    (exec t (last_instr t) (exec t (.mov (RET t) (ARG1 t)) m)).pc = return_address t m ∧
    (m.reg t.spReg + t.wordBytes < t.modulus →
      (exec t (last_instr t) (exec t (.mov (RET t) (ARG1 t)) m)).reg t.spReg =
        sp_after_return t m) := by
  cases t
  · refine ⟨rfl, by simp [exec, last_instr, RET, ARG1], ?_, by simp [exec, last_instr, RET, ARG1, return_address], ?_⟩
    · intro y hy
      simp only [pushed_tina_swap, List.mem_cons, List.mem_singleton, List.not_mem_nil, or_false] at hy
      rcases hy with h | h | h | h | h | h | h | h | h <;> subst h <;>
        simp [exec, last_instr, RET, ARG1]
    · intro _; simp [exec, last_instr, RET, ARG1, sp_after_return, Target.spReg]
  · refine ⟨rfl, by simp [exec, last_instr, RET, ARG1, Target.spReg], ?_, by simp [exec, last_instr, RET, ARG1, return_address, Target.spReg], ?_⟩
    · intro y hy
      simp only [pushed_tina_swap, List.mem_cons, List.mem_singleton, List.not_mem_nil, or_false] at hy
      rcases hy with h | h | h | h | h | h <;> subst h <;>
        simp [exec, last_instr, RET, ARG1, Target.spReg]
    · intro h
      have h' := Nat.mod_eq_of_lt h
      simp only [Target.spReg, Target.wordBytes] at h'
      simp [exec, last_instr, RET, ARG1, sp_after_return, Target.spReg, h', Target.wordBytes]
  · refine ⟨rfl, by simp [exec, last_instr, RET, ARG1, Target.spReg], ?_, by simp [exec, last_instr, RET, ARG1, return_address, Target.spReg], ?_⟩
    · intro y hy
      simp only [pushed_tina_swap, List.mem_cons, List.mem_singleton, List.not_mem_nil, or_false] at hy
      rcases hy with h | h | h | h | h | h | h | h | h | h | h <;> subst h <;>
        simp [exec, last_instr, RET, ARG1, Target.spReg]
    · intro h
      have h' := Nat.mod_eq_of_lt h
      simp only [Target.spReg, Target.wordBytes] at h'
      simp [exec, last_instr, RET, ARG1, sp_after_return, Target.spReg, h', Target.wordBytes]

/-! ## Entering `tina_context` -/

theorem and_not_15 (k x : Nat) (hk : 4 ≤ k) (hx : x < 2 ^ k) :
    x &&& (2 ^ k - 1 - 15) = x - x % 16 := by
  have hp : 2 ^ k = 2 ^ 4 * 2 ^ (k - 4) := by
    rw [← pow_add]; congr 1; omega
  have hpos : 0 < 2 ^ (k - 4) := Nat.two_pow_pos _
  have hm : 2 ^ k - 1 - 15 = 2 ^ 4 * (2 ^ (k - 4) - 1) := by
    rw [hp, Nat.mul_sub]; omega
  have hr : x - x % 16 = 2 ^ 4 * (x >>> 4) := by
    rw [Nat.shiftRight_eq_div_pow]; omega
  rw [hm, hr]
  apply Nat.eq_of_testBit_eq
  intro i
  rw [Nat.testBit_and, Nat.testBit_mul_pow_two, Nat.testBit_mul_pow_two,
    Nat.testBit_two_pow_sub_one, Nat.testBit_shiftRight]
  by_cases h4 : 4 ≤ i
  · have e : 4 + (i - 4) = i := by omega
    rw [e]
    by_cases hik : i < k
    · have : i - 4 < k - 4 := by omega
      simp [h4, this]
    · have hxi : x.testBit i = false :=
        Nat.testBit_lt_two_pow (lt_of_lt_of_le hx (Nat.pow_le_pow_right (by decide) (by omega)))
      simp [hxi]
  · simp [h4]

/-- The computed stack top is the fourth argument rounded down to 16 bytes. -/
theorem stack_top_eq (t : Target) (s : Machine) (h : s.reg (ARG3 t) < t.modulus) :
    stack_top t s = s.reg (ARG3 t) - s.reg (ARG3 t) % 16 := by
  unfold stack_top Target.modulus at *
  exact and_not_15 _ _ (by cases t <;> decide) h

theorem stack_top_lt (t : Target) (s : Machine) : stack_top t s < t.modulus := by
  have h : stack_top t s ≤ t.modulus - 1 - 0xF := Nat.and_le_right
  have : 16 < t.modulus := by cases t <;> decide
  omega

theorem pushVal_sp (t : Target) (v : Nat) (s : Machine)
    (h1 : t.wordBytes ≤ s.reg t.spReg) (h2 : s.reg t.spReg < t.modulus) :
    (pushVal t v s).reg t.spReg = s.reg t.spReg - t.wordBytes := by
  simp [pushVal, sub_wrap h1 h2]

theorem pushVal_mem (t : Target) (v : Nat) (s : Machine) (a : Nat)
    (h1 : t.wordBytes ≤ s.reg t.spReg) (h2 : s.reg t.spReg < t.modulus) :
    (pushVal t v s).mem a = if a = s.reg t.spReg - t.wordBytes then v else s.mem a := by
  simp [pushVal, sub_wrap h1 h2]

theorem boot_eq (t : Target) (L : Layout) :
    boot t L =
      match t with
      | .arm_eabi => [.andNot .r3 0xF, .mov .sp .r3, .movImm .lr 0, .jmp L.tina_context]
      | .amd64_unix => [.andNot .rcx 0xF, .mov .rsp .rcx, .pushImm 0, .jmp L.tina_context]
      | .win64 => [.andNot .r9 0xF, .mov .rsp .r9, .movGs 0x8 .r9, .movGs 0x8 .rcx,
          .movGs 0x8 .rcx, .pushImm 0, .call L.tina_context L.after_call, .ret] := by
  rw [boot, prologue_tina_swap]
  cases t <;>
    simp only [pushed_tina_swap, List.map, List.length, List.drop, tina_init_stack,
      arm_tina_init_stack, amd64_tina_init_stack, win64_tina_init_stack, Nat.reduceAdd]

/-- The state in which `tina_init_stack` enters `tina_context`. -/
theorem run_boot (t : Target) (L : Layout) (m : Machine)
    (h : boot_words t * t.wordBytes ≤ stack_top t m) :
    (run t (boot t L) m).pc = L.tina_context ∧
    (run t (boot t L) m).reg t.spReg = stack_top t m - boot_words t * t.wordBytes ∧
    (∀ x, outside x (stack_top t m - boot_words t * t.wordBytes) (stack_top t m) →
      (run t (boot t L) m).mem x = m.mem x) := by
  have hlt := stack_top_lt t m
  rw [boot_eq]
  cases t
  · simp [run, exec, Instr.isTransfer, stack_top, Target.spReg, ARG3, boot_words]
  · simp only [boot_words, Target.wordBytes, Nat.one_mul] at h
    have e := sub_wrap h hlt
    simp only [stack_top, ARG3, Target.wordBytes] at e h
    refine ⟨by simp [run, exec, Instr.isTransfer], ?_, ?_⟩
    · simp [run, exec, Instr.isTransfer, stack_top, Target.spReg, ARG3, boot_words, pushVal,
        Target.wordBytes, e]
    · intro x hx
      simp only [outside, boot_words, stack_top, ARG3, Target.wordBytes, Nat.one_mul] at hx
      have : x ≠ (m.reg .rcx &&& (Target.amd64_unix.modulus - 1 - 15)) - 8 := by omega
      simp [run, exec, Instr.isTransfer, stack_top, Target.spReg, ARG3, boot_words, pushVal,
        Target.wordBytes, e, this]
  · simp only [boot_words, Target.wordBytes] at h
    have e := sub_wrap (show 8 ≤ stack_top .win64 m by omega) hlt
    have e2 := sub_wrap (show 8 ≤ stack_top .win64 m - 8 by omega)
      (show stack_top .win64 m - 8 < Target.win64.modulus by omega)
    simp only [stack_top, ARG3, Target.wordBytes] at e e2 h
    refine ⟨by simp [run, exec, Instr.isTransfer], ?_, ?_⟩
    · simp [run, exec, Instr.isTransfer, stack_top, Target.spReg, ARG3, boot_words, pushVal,
        Target.wordBytes, e, e2]
      omega
    · intro x hx
      simp only [outside, boot_words, stack_top, ARG3, Target.wordBytes] at hx
      have h1 : x ≠ (m.reg .r9 &&& (Target.win64.modulus - 1 - 15)) - 8 := by omega
      have h2 : x ≠ (m.reg .r9 &&& (Target.win64.modulus - 1 - 15)) - 8 - 8 := by omega
      simp [run, exec, Instr.isTransfer, stack_top, Target.spReg, ARG3, boot_words, pushVal,
        Target.wordBytes, e, e2, h1, h2]

/-! ## Suspending and resuming -/

/-- After `tina_swap` the context that called it is suspended at the cursor. -/
theorem tina_swap_suspends (t : Target) (a : Machine)
    (h1 : frame_words t * t.wordBytes ≤ a.reg t.spReg) (h2 : a.reg t.spReg < t.modulus)
    (hp : outside (a.reg (ARG2 t)) (a.reg t.spReg - frame_words t * t.wordBytes)
      (a.reg t.spReg + t.wordBytes)) :
    Suspended t a (run t (tina_swap t) a) (a.reg (ARG2 t)) := by
  apply suspended_of_mem t a _ _ h1 h2
  · rw [run_tina_swap_mem t a _ h1 h2, if_pos rfl]
  · intro x hx
    rw [run_tina_swap_mem t a _ h1 h2, if_neg]
    intro e
    rw [e] at hx
    exact hx hp

/-- After `tina_init_stack` the context that called it is suspended at the
cursor, when the words written on the new stack are away from its frame and
from the cursor. -/
theorem tina_init_stack_suspends (t : Target) (L : Layout) (a : Machine)
    (h1 : frame_words t * t.wordBytes ≤ a.reg t.spReg) (h2 : a.reg t.spReg < t.modulus)
    (hp : outside (a.reg (ARG2 t)) (a.reg t.spReg - frame_words t * t.wordBytes)
      (a.reg t.spReg + t.wordBytes))
    (hb : boot_words t * t.wordBytes ≤ stack_top t a)
    (hbp : outside (a.reg (ARG2 t)) (stack_top t a - boot_words t * t.wordBytes) (stack_top t a))
    (hba : apart (stack_top t a - boot_words t * t.wordBytes) (stack_top t a)
      (a.reg t.spReg - frame_words t * t.wordBytes) (a.reg t.spReg + t.wordBytes)) :
    Suspended t a (run t (tina_init_stack t L) a) (a.reg (ARG2 t)) := by
  have ha2 : (pushAll t (pushed (tina_swap t)) a).reg (ARG2 t) = a.reg (ARG2 t) := by
    have := pushAll_read t (pushed (tina_swap t)) (.reg (ARG2 t)) a (by cases t <;> decide)
    simpa using this
  have ha3 : (pushAll t (pushed (tina_swap t)) a).reg (ARG3 t) = a.reg (ARG3 t) := by
    have := pushAll_read t (pushed (tina_swap t)) (.reg (ARG3 t)) a (by cases t <;> decide)
    simpa using this
  have htop : stack_top t (exec t (.store (ARG2 t) t.spReg) (pushAll t (pushed (tina_swap t)) a))
      = stack_top t a := by
    simp only [stack_top, exec, setMem_reg, ha3]
  have hmem : ∀ x, outside x (stack_top t a - boot_words t * t.wordBytes) (stack_top t a) →
      (run t (tina_init_stack t L) a).mem x =
        if x = a.reg (ARG2 t) then a.reg t.spReg - frame_words t * t.wordBytes
        else (pushAll t (pushed (tina_swap t)) a).mem x := by
    intro x hx
    rw [run_tina_init_stack, (run_boot t L _ (by rw [htop]; exact hb)).2.2 x (by rw [htop]; exact hx)]
    simp only [exec, setMem_mem, ha2, pushAll_sp t _ a h1 h2]
    rfl
  apply suspended_of_mem t a _ _ h1 h2
  · rw [hmem _ hbp, if_pos rfl]
  · intro x hx
    rw [hmem x (by unfold outside apart at *; omega), if_neg]
    intro e
    rw [e] at hx
    exact hx hp

/-- Resuming a suspended context: `tina_swap` entered in state `b`, whose
cursor holds the suspended context of `a`, returns into `a` with the saved
operands and stack pointer, passes the value, and leaves `b` suspended. -/
theorem tina_swap_resumes (t : Target) (a b : Machine) (p : Nat)
    (ha1 : frame_words t * t.wordBytes ≤ a.reg t.spReg)
    (ha2 : a.reg t.spReg + t.wordBytes < t.modulus)
    (hb1 : frame_words t * t.wordBytes ≤ b.reg t.spReg) (hb2 : b.reg t.spReg < t.modulus)
    (hcur : b.reg (ARG2 t) = p)
    (hsus : Suspended t a b p)
    (hpa : outside p (a.reg t.spReg - frame_words t * t.wordBytes) (a.reg t.spReg + t.wordBytes))
    (hpb : outside p (b.reg t.spReg - frame_words t * t.wordBytes) (b.reg t.spReg + t.wordBytes))
    (hab : apart (b.reg t.spReg - frame_words t * t.wordBytes) (b.reg t.spReg)
      (a.reg t.spReg - frame_words t * t.wordBytes) (a.reg t.spReg + t.wordBytes)) :
    (run t (tina_swap t) b).pc = return_address t a ∧
    (run t (tina_swap t) b).reg t.spReg = sp_after_return t a ∧
    (∀ x ∈ pushed (tina_swap t), (run t (tina_swap t) b).read x = a.read x) ∧
    (run t (tina_swap t) b).reg (RET t) = b.reg (ARG1 t) ∧
    Suspended t b (run t (tina_swap t) b) p := by
  have hw := wordBytes_pos t
  obtain ⟨hs1, hs2, hs3⟩ := hsus
  have hsusb : Suspended t b (run t (tina_swap t) b) p := by
    rw [← hcur]
    exact tina_swap_suspends t b hb1 hb2 (by rw [hcur]; exact hpb)
  have hm0sp := pushAll_sp t (pushed (tina_swap t)) b hb1 hb2
  have hm0a2 : (pushAll t (pushed (tina_swap t)) b).reg (ARG2 t) = p := by
    have := pushAll_read t (pushed (tina_swap t)) (.reg (ARG2 t)) b (by cases t <;> decide)
    simpa [hcur] using this
  have hm0a1 : (pushAll t (pushed (tina_swap t)) b).reg (ARG1 t) = b.reg (ARG1 t) := by
    have := pushAll_read t (pushed (tina_swap t)) (.reg (ARG1 t)) b (by cases t <;> decide)
    simpa using this
  have hm0mem : ∀ x, outside x (b.reg t.spReg - frame_words t * t.wordBytes) (b.reg t.spReg) →
      (pushAll t (pushed (tina_swap t)) b).mem x = b.mem x :=
    fun x hx => pushAll_mem_outside t _ b x hb1 hb2 hx
  obtain ⟨e1, e2, -, -⟩ := steps_exchange t (pushAll t (pushed (tina_swap t)) b)
  rw [hm0a2] at e1 e2
  have hm1sp : (steps t (exchange t) (pushAll t (pushed (tina_swap t)) b)).reg t.spReg =
      a.reg t.spReg - (pushed (tina_swap t)).length * t.wordBytes := by
    rw [e1, if_pos rfl, hm0mem p (by unfold outside at *; omega), hs1]; rfl
  have hm1mem : ∀ x, outside x (b.reg t.spReg - frame_words t * t.wordBytes) (b.reg t.spReg) →
      x ≠ p → (steps t (exchange t) (pushAll t (pushed (tina_swap t)) b)).mem x = b.mem x := by
    intro x hx hxp
    rw [e2, if_neg hxp, hm0mem x hx]
  have hframe : holds_frame t a (steps t (exchange t) (pushAll t (pushed (tina_swap t)) b))
      (pushed (tina_swap t)) (a.reg t.spReg) := by
    apply holds_frame_congr t a b _ _ _ ha1 _ hs2
    intro x hx
    rw [← frame_words_eq] at hx
    exact hm1mem x (by unfold outside apart at *; omega) (by unfold outside at *; omega)
  obtain ⟨r1, r2, r3⟩ := popAll_restore t (pushed (tina_swap t)) a _ (a.reg t.spReg)
    (sp_not_pushed t) ha1 (by omega) hm1sp hframe
  have r4 := (popAll_mem t (pushed (tina_swap t)).reverse
    (steps t (exchange t) (pushAll t (pushed (tina_swap t)) b))).1
  obtain ⟨-, f2, f3, f4, f5⟩ := finish_facts t (popAll t (pushed (tina_swap t)).reverse
    (steps t (exchange t) (pushAll t (pushed (tina_swap t)) b)))
  have hslot : (steps t (exchange t) (pushAll t (pushed (tina_swap t)) b)).mem (a.reg t.spReg) =
      b.mem (a.reg t.spReg) :=
    hm1mem _ (by unfold outside apart at *; omega) (by unfold outside at *; omega)
  refine ⟨?_, ?_, ?_, ?_, hsusb⟩ <;> rw [run_tina_swap]
  · rw [f4]
    cases t
    · exact r2 (.reg .lr) (by simp [pushed_tina_swap])
    · simp only [return_address, Target.spReg] at *
      rw [r1, r4, hslot, hs3]
    · simp only [return_address, Target.spReg] at *
      rw [r1, r4, hslot, hs3]
  · rw [f5 (by rw [r1]; exact ha2)]
    cases t <;> simp only [sp_after_return, Target.spReg] at * <;> rw [r1]
  · intro x hx
    rw [f3 x hx, r2 x hx]
  · rw [f2]
    have := r3 (.reg (ARG1 t)) (arg1_not_pushed t) (by cases t <;> decide)
    simp only [read_reg] at this
    rw [this, e1, if_neg (by cases t <;> decide), if_neg (by cases t <;> decide), hm0a1]

theorem pop1_read_other (t : Target) (x y : Slot) (m : Machine)
    (hx : y ≠ x) (hsp : y ≠ .reg t.spReg) : (pop1 t x m).read y = m.read y := by
  simp only [pop1]
  rw [write_read_other _ _ _ _ hx]
  cases y with
  | reg r =>
    have hr : r ≠ t.spReg := fun e => hsp (by rw [e])
    simp [hr]
  | gs o => simp

theorem popAll_read_other (t : Target) (xs : List Slot) (y : Slot) (m : Machine)
    (hx : y ∉ xs) (hsp : y ≠ .reg t.spReg) : (popAll t xs m).read y = m.read y := by
  induction xs generalizing m with
  | nil => rfl
  | cons x rest ih =>
    simp only [List.mem_cons, not_or] at hx
    have : popAll t (x :: rest) m = popAll t rest (pop1 t x m) := rfl
    rw [this, ih _ hx.2, pop1_read_other t x y m hx.1 hsp]

/-- The value given to `tina_swap` is in the return register when it returns,
whatever context it returns into. -/
theorem tina_swap_passes_value (t : Target) (m : Machine) :
    (run t (tina_swap t) m).reg (RET t) = m.reg (ARG1 t) := by
  rw [run_tina_swap, (finish_facts t _).2.1]
  have h1 := popAll_read_other t (pushed (tina_swap t)).reverse (.reg (ARG1 t))
    (steps t (exchange t) (pushAll t (pushed (tina_swap t)) m))
    (by rw [List.mem_reverse]; exact arg1_not_pushed t) (by cases t <;> decide)
  have h2 := pushAll_read t (pushed (tina_swap t)) (.reg (ARG1 t)) m (by cases t <;> decide)
  simp only [read_reg] at h1 h2
  rw [h1, (steps_exchange t _).1, if_neg (by cases t <;> decide),
    if_neg (by cases t <;> decide), h2]

/-! ## Facts about the C layer -/

theorem after_body_value {S : Type} (w : World S) (st : BodyStep S) :
    (after_body w st).2 = st.value := by
  cases st <;> rfl

theorem after_body_events {S : Type} (w : World S) (st : BodyStep S) :
    (after_body w st).1.events = w.events := by
  cases st <;> rfl

theorem dead_loop_facts {S : Type} (w : World S) :
    (dead_loop w).2 = 0 ∧ (dead_loop w).1.hdr._sp = .line68 ∧
    (dead_loop w).1.hdr.running = w.hdr.running ∧
    (dead_loop w).1.hdr.error_handler = w.hdr.error_handler ∧
    (dead_loop w).1.coro = w.coro ∧
    (dead_loop w).1.events = w.events ++
      (if w.hdr.error_handler ≠ 0 then
        [.error_handler w.hdr.error_handler w.coro "Attempted to resume a dead coroutine."]
      else []) := by
  unfold dead_loop
  by_cases h : w.hdr.error_handler = 0 <;> simp [h]

/-- Resuming never sets `running`. -/
theorem tina_yield_running {S : Type} (w : World S) (x : Nat) :
    (tina_yield w x).1.hdr.running = true → w.hdr.running = true := by
  unfold tina_yield tina_context
  split
  · cases w.body.call w.coro x <;> simp [after_body]
  · rename_i s _
    cases w.body.resume s x <;> simp [after_body]
  · exact fun h => (dead_loop_facts w).2.2.1 ▸ h
  · exact fun h => (dead_loop_facts w).2.2.1 ▸ h

/-- Between resumes, `running` is true exactly while the body has not returned. -/
theorem tina_yield_inv {S : Type} (w : World S) (x : Nat)
    (h : w.hdr.running = !dead w) :
    (tina_yield w x).1.hdr.running = !dead (tina_yield w x).1 := by
  unfold tina_yield tina_context
  split
  · rename_i e
    cases hc : w.body.call w.coro x <;> simp [after_body, dead]
    simpa [dead, e] using h
  · rename_i s e
    cases hc : w.body.resume s x <;> simp [after_body, dead]
    simpa [dead, e] using h
  · rename_i e
    have := dead_loop_facts w
    simp [dead, this.2.1, this.2.2.1, h, e]
  · rename_i e
    have := dead_loop_facts w
    simp [dead, this.2.1, this.2.2.1, h, e]

theorem resumes_inv {S : Type} (w : World S) (xs : List Nat)
    (h : w.hdr.running = !dead w) :
    (resumes w xs).1.hdr.running = !dead (resumes w xs).1 := by
  induction xs generalizing w with
  | nil => exact h
  | cons x rest ih => exact ih _ (tina_yield_inv w x h)

theorem resumes_cons {S : Type} (w : World S) (x : Nat) (xs : List Nat) :
    resumes w (x :: xs) =
      ((resumes (tina_yield w x).1 xs).1,
        ((tina_yield w x).2, (tina_yield w x).1.hdr.running) :: (resumes (tina_yield w x).1 xs).2) :=
  rfl

/-- A body that yields `ys` and then returns `r`, seen from the resumer. -/
theorem resumes_follow {S : Type} (w : World S) (st : BodyStep S) (xs ys : List Nat) (r : Nat)
    (hrun : w.hdr.running = true)
    (hb : yields_then_returns w.body st xs ys r) :
    ((after_body w st).2, (after_body w st).1.hdr.running) :: (resumes (after_body w st).1 xs).2 =
      ys.map (fun y => (y, true)) ++ [(r, false)] ∧
    (resumes (after_body w st).1 xs).1.events = w.events ∧
    xs.length = ys.length := by
  induction xs generalizing w st ys with
  | nil =>
    cases st with
    | yield v s => cases ys <;> simp [yields_then_returns] at hb
    | ret r' =>
      cases ys with
      | nil =>
        simp only [yields_then_returns] at hb
        simp [after_body, resumes, hb]
      | cons y ys => simp [yields_then_returns] at hb
  | cons x xs ih =>
    cases st with
    | ret r' => cases ys <;> simp [yields_then_returns] at hb
    | yield v s =>
      cases ys with
      | nil => simp [yields_then_returns] at hb
      | cons y ys =>
        simp only [yields_then_returns] at hb
        obtain ⟨hv, hrest⟩ := hb
        have key := ih { w with hdr := { w.hdr with _sp := .in_body s } }
          (w.body.resume s x) ys hrun hrest
        have hy : tina_yield (after_body w (.yield v s)).1 x =
            after_body { w with hdr := { w.hdr with _sp := .in_body s } } (w.body.resume s x) := rfl
        rw [resumes_cons, hy]
        refine ⟨?_, key.2.1, by simp [key.2.2]⟩
        simp only [List.map_cons, List.cons_append]
        rw [key.1]
        simp [after_body, hrun, hv]

/-- A dead coroutine stays dead: every resume returns 0 and calls the handler,
if there is one, once. -/
theorem resumes_dead {S : Type} (w : World S) (xs : List Nat) (hd : dead w = true) :
    dead (resumes w xs).1 = true ∧
    (resumes w xs).1.hdr.running = w.hdr.running ∧
    (resumes w xs).1.hdr.error_handler = w.hdr.error_handler ∧
    (resumes w xs).1.coro = w.coro ∧
    (resumes w xs).2 = xs.map (fun _ => (0, w.hdr.running)) ∧
    (resumes w xs).1.events = w.events ++
      (if w.hdr.error_handler ≠ 0 then
        List.replicate xs.length
          (.error_handler w.hdr.error_handler w.coro "Attempted to resume a dead coroutine.")
      else []) := by
  induction xs generalizing w with
  | nil => simp [resumes, hd]
  | cons x xs ih =>
    have hy : tina_yield w x = dead_loop w := by
      unfold tina_yield tina_context
      unfold dead at hd
      split <;> simp_all
    obtain ⟨d1, d2, d3, d4, d5, d6⟩ := dead_loop_facts w
    have hd' : dead (dead_loop w).1 = true := by simp [dead, d2]
    obtain ⟨i1, i2, i3, i4, i5, i6⟩ := ih (dead_loop w).1 hd'
    rw [resumes_cons, hy]
    refine ⟨i1, by rw [i2, d3], by rw [i3, d4], by rw [i4, d5], ?_, ?_⟩
    · simp [i5, d1, d3]
    · simp only [i6, d6, d4, d5]
      by_cases h : w.hdr.error_handler = 0
      · simp [h]
      · simp [h, List.replicate_succ]

theorem pushVal_reg_other (t : Target) (v : Nat) (s : Machine) (r : Reg) (h : r ≠ t.spReg) :
    (pushVal t v s).reg r = s.reg r := by
  simp [pushVal, h]

theorem pushVal_gs (t : Target) (v : Nat) (s : Machine) : (pushVal t v s).gs = s.gs := rfl

theorem boot_arm (L : Layout) :
    boot .arm_eabi L = [.andNot .r3 0xF, .mov .sp .r3, .movImm .lr 0, .jmp L.tina_context] := by
  rw [boot_eq]

theorem boot_amd64 (L : Layout) :
    boot .amd64_unix L =
      [.andNot .rcx 0xF, .mov .rsp .rcx, .pushImm 0, .jmp L.tina_context] := by
  rw [boot_eq]

theorem boot_win64 (L : Layout) :
    boot .win64 L =
      [.andNot .r9 0xF, .mov .rsp .r9, .movGs 0x8 .r9, .movGs 0x8 .rcx, .movGs 0x8 .rcx,
        .pushImm 0, .call L.tina_context L.after_call, .ret] := by
  rw [boot_eq]

/-- What `tina_context` finds when `tina_init_stack` enters it: its arguments
untouched, a return address of 0 on ARM and System V, and on Win64 the address
after the `call` with the pushed 0 above it; on Win64 `gs:0x8` holds the first
argument and `gs:0x10`, `gs:0x1478` are as before. -/
theorem run_boot_entry (t : Target) (L : Layout) (m : Machine)
    (h : boot_words t * t.wordBytes ≤ stack_top t m) :
    (run t (boot t L) m).reg (ARG0 t) = m.reg (ARG0 t) ∧
    (run t (boot t L) m).reg (ARG1 t) = m.reg (ARG1 t) ∧
    return_address t (run t (boot t L) m) =
      entry_return_address t L ∧
    (t = .win64 →
      (run t (boot t L) m).mem ((run t (boot t L) m).reg .rsp + 8) = 0 ∧
      (run t (boot t L) m).gs 0x8 = m.reg .rcx ∧
      (run t (boot t L) m).gs 0x10 = m.gs 0x10 ∧
      (run t (boot t L) m).gs 0x1478 = m.gs 0x1478) := by
  have hlt := stack_top_lt t m
  cases t
  · rw [boot_arm]
    simp [run, exec, Instr.isTransfer, ARG0, ARG1, return_address, entry_return_address]
  · rw [boot_amd64]
    simp only [boot_words, Target.wordBytes, Nat.one_mul] at h
    have hrun : run .amd64_unix [.andNot .rcx 0xF, .mov .rsp .rcx, .pushImm 0,
        .jmp L.tina_context] m =
        (pushVal .amd64_unix 0 ((m.setReg .rcx (stack_top .amd64_unix m)).setReg .rsp
            (stack_top .amd64_unix m))).setPc L.tina_context := by
      simp [run, exec, Instr.isTransfer, stack_top, ARG3]
    have hsp : ((m.setReg .rcx (stack_top .amd64_unix m)).setReg .rsp
        (stack_top .amd64_unix m)).reg Target.amd64_unix.spReg = stack_top .amd64_unix m := by
      simp [Target.spReg]
    generalize hm2 : (m.setReg .rcx (stack_top .amd64_unix m)).setReg .rsp
        (stack_top .amd64_unix m) = m2 at hrun hsp
    have hdi : m2.reg .rdi = m.reg .rdi := by rw [← hm2]; simp
    have hsi : m2.reg .rsi = m.reg .rsi := by rw [← hm2]; simp
    have s1 := pushVal_sp .amd64_unix 0 m2 (by rw [hsp]; exact h) (by rw [hsp]; exact hlt)
    have s2 := pushVal_mem .amd64_unix 0 m2 (m2.reg .rsp - 8) (by rw [hsp]; exact h)
      (by rw [hsp]; exact hlt)
    simp only [Target.spReg, Target.wordBytes, if_true] at s1 s2
    rw [hrun, return_address_amd64]
    simp only [setPc_reg, setPc_mem]
    refine ⟨?_, ?_, ?_, fun e => by cases e⟩
    · rw [pushVal_reg_other _ _ _ _ (by decide)]; exact hdi
    · rw [pushVal_reg_other _ _ _ _ (by decide)]; exact hsi
    · rw [s1, s2]; rfl
  · rw [boot_win64]
    simp only [boot_words, Target.wordBytes] at h
    have hrun : run .win64 [.andNot .r9 0xF, .mov .rsp .r9, .movGs 0x8 .r9, .movGs 0x8 .rcx,
          .movGs 0x8 .rcx, .pushImm 0, .call L.tina_context L.after_call, .ret] m =
        (pushVal .win64 L.after_call (pushVal .win64 0
          (steps .win64 [.andNot .r9 0xF, .mov .rsp .r9, .movGs 0x8 .r9, .movGs 0x8 .rcx,
            .movGs 0x8 .rcx] m))).setPc L.tina_context := by
      simp only [run, steps, List.foldl, exec, Instr.isTransfer, Bool.false_eq_true, if_false,
        if_true]
    have hsp : (steps .win64 [.andNot .r9 0xF, .mov .rsp .r9, .movGs 0x8 .r9, .movGs 0x8 .rcx,
        .movGs 0x8 .rcx] m).reg Target.win64.spReg = stack_top .win64 m := by
      simp [steps, exec, Target.spReg, stack_top, ARG3]
    have hcx0 : (steps .win64 [.andNot .r9 0xF, .mov .rsp .r9, .movGs 0x8 .r9, .movGs 0x8 .rcx,
        .movGs 0x8 .rcx] m).reg .rcx = m.reg .rcx := by
      simp [steps, exec]
    have hdx0 : (steps .win64 [.andNot .r9 0xF, .mov .rsp .r9, .movGs 0x8 .r9, .movGs 0x8 .rcx,
        .movGs 0x8 .rcx] m).reg .rdx = m.reg .rdx := by
      simp [steps, exec]
    have hgs0 : ∀ o, (steps .win64 [.andNot .r9 0xF, .mov .rsp .r9, .movGs 0x8 .r9,
        .movGs 0x8 .rcx, .movGs 0x8 .rcx] m).gs o = if o = 0x8 then m.reg .rcx else m.gs o := by
      intro o
      by_cases ho : o = 8 <;> simp [steps, exec, ho]
    have hmem0 : (steps .win64 [.andNot .r9 0xF, .mov .rsp .r9, .movGs 0x8 .r9, .movGs 0x8 .rcx,
        .movGs 0x8 .rcx] m).mem = m.mem := by
      simp [steps, exec]
    generalize hm5 : steps .win64 [.andNot .r9 0xF, .mov .rsp .r9, .movGs 0x8 .r9,
        .movGs 0x8 .rcx, .movGs 0x8 .rcx] m = m5 at hrun hsp hcx0 hdx0 hgs0 hmem0
    have hcx : m5.reg .rcx = m.reg .rcx := hcx0
    have hdx : m5.reg .rdx = m.reg .rdx := hdx0
    have hg1 : m5.gs 0x8 = m.reg .rcx := by rw [hgs0]; rfl
    have hg2 : m5.gs 0x10 = m.gs 0x10 := by rw [hgs0]; rfl
    have hg3 : m5.gs 0x1478 = m.gs 0x1478 := by rw [hgs0]; rfl
    have s1 := pushVal_sp .win64 0 m5 (by rw [hsp]; simp only [Target.wordBytes]; omega)
      (by rw [hsp]; exact hlt)
    have hsp1 : (pushVal .win64 0 m5).reg Target.win64.spReg = stack_top .win64 m - 8 := by
      rw [s1, hsp]; rfl
    have s2 := pushVal_sp .win64 L.after_call (pushVal .win64 0 m5)
      (by rw [hsp1]; simp only [Target.wordBytes]; omega) (by rw [hsp1]; omega)
    have s3 : ∀ x, (pushVal .win64 L.after_call (pushVal .win64 0 m5)).mem x =
        if x = stack_top .win64 m - 8 - 8 then L.after_call
        else if x = stack_top .win64 m - 8 then 0 else m5.mem x := by
      intro x
      rw [pushVal_mem .win64 _ _ x (by rw [hsp1]; simp only [Target.wordBytes]; omega)
        (by rw [hsp1]; omega), hsp1,
        pushVal_mem .win64 _ _ x (by rw [hsp]; simp only [Target.wordBytes]; omega)
        (by rw [hsp]; exact hlt), hsp]
      rfl
    rw [hsp1] at s2
    simp only [Target.spReg, Target.wordBytes] at s2
    rw [hrun, return_address_win64]
    simp only [setPc_reg, setPc_mem, setPc_gs]
    refine ⟨?_, ?_, ?_, fun _ => ⟨?_, ?_, ?_, ?_⟩⟩
    · rw [pushVal_reg_other _ _ _ _ (by decide), pushVal_reg_other _ _ _ _ (by decide)]
      exact hcx
    · rw [pushVal_reg_other _ _ _ _ (by decide), pushVal_reg_other _ _ _ _ (by decide)]
      exact hdx
    · rw [s2, s3, if_pos rfl]; rfl
    · rw [s2, s3, if_neg (by omega), if_pos (by omega)]
    · rw [pushVal_gs, pushVal_gs, hg1]
    · rw [pushVal_gs, pushVal_gs, hg2]
    · rw [pushVal_gs, pushVal_gs, hg3]

/-- The state in which `tina_init_stack` enters `tina_context`, in terms of the
state `m` in which `tina_init_stack` was called. -/
theorem tina_init_stack_enters (t : Target) (L : Layout) (m : Machine)
    (h : boot_words t * t.wordBytes ≤ stack_top t m) :
    (run t (tina_init_stack t L) m).pc = L.tina_context ∧
    (run t (tina_init_stack t L) m).reg t.spReg = stack_top t m - boot_words t * t.wordBytes ∧
    (run t (tina_init_stack t L) m).reg (ARG0 t) = m.reg (ARG0 t) ∧
    (run t (tina_init_stack t L) m).reg (ARG1 t) = m.reg (ARG1 t) ∧
    return_address t (run t (tina_init_stack t L) m) =
      entry_return_address t L ∧
    (t = .win64 →
      (run t (tina_init_stack t L) m).mem ((run t (tina_init_stack t L) m).reg .rsp + 8) = 0 ∧
      (run t (tina_init_stack t L) m).gs 0x8 = m.reg .rcx ∧
      (run t (tina_init_stack t L) m).gs 0x10 = m.gs 0x10 ∧
      (run t (tina_init_stack t L) m).gs 0x1478 = m.gs 0x1478) := by
  have hr : ∀ r, r ≠ t.spReg → (exec t (.store (ARG2 t) t.spReg)
      (pushAll t (pushed (tina_swap t)) m)).reg r = m.reg r := by
    intro r hr
    have := pushAll_read t (pushed (tina_swap t)) (.reg r) m (fun e => hr (by injection e))
    simpa [exec] using this
  have hg : ∀ o, (exec t (.store (ARG2 t) t.spReg)
      (pushAll t (pushed (tina_swap t)) m)).gs o = m.gs o := by
    intro o
    have := pushAll_read t (pushed (tina_swap t)) (.gs o) m (by simp)
    simpa [exec] using this
  have htop : stack_top t (exec t (.store (ARG2 t) t.spReg) (pushAll t (pushed (tina_swap t)) m))
      = stack_top t m := by
    simp only [stack_top, hr (ARG3 t) (by cases t <;> decide)]
  have hb := run_boot t L _ (by rw [htop]; exact h)
  have he := run_boot_entry t L _ (by rw [htop]; exact h)
  rw [run_tina_init_stack]
  rw [htop] at hb
  refine ⟨hb.1, hb.2.1, ?_, ?_, he.2.2.1, ?_⟩
  · rw [he.1, hr _ (by cases t <;> decide)]
  · rw [he.2.1, hr _ (by cases t <;> decide)]
  · intro ht
    obtain ⟨g1, g2, g3, g4⟩ := he.2.2.2 ht
    subst ht
    exact ⟨g1, by rw [g2, hr _ (by decide)], by rw [g3, hg], by rw [g4, hg]⟩

/-- The entry frame on each target, for a stack top argument that is a machine
word: the new stack top is the argument rounded down to 16 bytes; on ARM and
System V the stack pointer has the alignment of a function entry and the return
address is 0; on Win64 the stack pointer is 16 below the top, which is not the
alignment of a function entry, and the return address is the address after the
`call`. -/
theorem bootstrap_frame (t : Target) (L : Layout) (m : Machine)
    (hm : m.reg (ARG3 t) < t.modulus)
    (h : boot_words t * t.wordBytes ≤ stack_top t m) :
    stack_top t m % 16 = 0 ∧ stack_top t m ≤ m.reg (ARG3 t) ∧
    m.reg (ARG3 t) < stack_top t m + 16 ∧
    (t ≠ .win64 →
      entry_aligned t ((run t (tina_init_stack t L) m).reg t.spReg) ∧
      return_address t (run t (tina_init_stack t L) m) = 0) ∧
    (t = .win64 →
      ((run t (tina_init_stack t L) m).reg t.spReg + 8) % 16 = 8 ∧
      ¬ entry_aligned t ((run t (tina_init_stack t L) m).reg t.spReg) ∧
      return_address t (run t (tina_init_stack t L) m) = L.after_call) := by
  have htop := stack_top_eq t m hm
  obtain ⟨-, e2, -, -, e5, -⟩ := tina_init_stack_enters t L m h
  generalize run t (tina_init_stack t L) m = r at e2 e5
  generalize r.reg t.spReg = sp at e2
  generalize return_address t r = ra at e5
  generalize stack_top t m = top at *
  refine ⟨by omega, by omega, by omega, ?_, ?_⟩
  · intro ht
    cases t
    · simp only [boot_words, Nat.zero_mul, Nat.sub_zero] at e2
      exact ⟨by unfold entry_aligned; simp only; omega, e5⟩
    · simp only [boot_words, Target.wordBytes, Nat.one_mul] at e2 h
      exact ⟨by unfold entry_aligned; simp only; omega, e5⟩
    · exact absurd rfl ht
  · intro ht
    subst ht
    simp only [boot_words, Target.wordBytes] at e2 h
    exact ⟨by omega, by unfold entry_aligned; simp only; omega, e5⟩

theorem suspended_congr (t : Target) (a m m' : Machine) (p : Nat) (h : m'.mem = m.mem)
    (hs : Suspended t a m p) : Suspended t a m' p := by
  obtain ⟨h1, h2, h3⟩ := hs
  refine ⟨by rw [h]; exact h1, ?_, by rw [h]; exact h3⟩
  have : ∀ xs top, holds_frame t a m xs top → holds_frame t a m' xs top := by
    intro xs
    induction xs with
    | nil => intro _ _; trivial
    | cons x rest ih => intro top hf; exact ⟨by rw [h]; exact hf.1, ih _ hf.2⟩
  exact this _ _ h2

/-- A register that `tina_swap` neither pushes nor uses has, when `tina_swap`
returns into the other context, the value it had when `tina_swap` was entered. -/
theorem tina_swap_leaves (t : Target) (m : Machine) (r : Reg)
    (h1 : Slot.reg r ∉ pushed (tina_swap t)) (h2 : r ≠ t.spReg) (h3 : r ≠ TMP t)
    (h4 : r ≠ RET t) :
    (run t (tina_swap t) m).reg r = m.reg r := by
  have hs : Slot.reg r ≠ Slot.reg t.spReg := fun e => h2 (by injection e)
  have p1 := popAll_read_other t (pushed (tina_swap t)).reverse (.reg r)
    (steps t (exchange t) (pushAll t (pushed (tina_swap t)) m))
    (by rw [List.mem_reverse]; exact h1) hs
  have p2 := pushAll_read t (pushed (tina_swap t)) (.reg r) m hs
  simp only [read_reg] at p1 p2
  have p3 : (run t (tina_swap t) m).reg r =
      (popAll t (pushed (tina_swap t)).reverse
        (steps t (exchange t) (pushAll t (pushed (tina_swap t)) m))).reg r := by
    rw [run_tina_swap]
    cases t <;> simp_all [exec, last_instr, RET, ARG1, Target.spReg, TMP]
  rw [p3, p1, (steps_exchange t _).1, if_neg h2, if_neg h3, p2]

/-- On each target `tina_swap` pops in the reverse of the order it pushes. -/
theorem popped_tina_swap (t : Target) : popped (tina_swap t) = (pushed (tina_swap t)).reverse := by
  rw [pushed_tina_swap]
  cases t <;>
    simp only [tina_swap, arm_tina_swap, amd64_tina_swap, win64_tina_swap,
      popped, List.map, List.reverse_cons, List.reverse_nil, List.nil_append,
      List.cons_append, List.append_nil]

/-- On each target `tina_init_stack` pushes what `tina_swap` pushes, in the
same order. -/
theorem pushed_tina_init_stack (t : Target) (L : Layout) :
    pushed (tina_init_stack t L) = pushed (tina_swap t) := by
  rw [pushed_tina_swap]
  cases t <;>
    simp only [tina_init_stack, arm_tina_init_stack, amd64_tina_init_stack,
      win64_tina_init_stack, pushed, List.map, List.reverse_cons, List.reverse_nil,
      List.nil_append, List.cons_append, List.append_nil]

/-- The `running` flags the resumer reads are those the body alone dictates. -/
theorem flags_follow {S : Type} (w : World S) (st : BodyStep S) (xs : List Nat)
    (hrun : w.hdr.running = true) :
    (after_body w st).1.hdr.running :: (resumes (after_body w st).1 xs).2.map Prod.snd =
      body_flags w.body st xs ∧
    (resumes (after_body w st).1 xs).1.hdr.running = yielded (body_continue w.body st xs) := by
  induction xs generalizing w st with
  | nil =>
    cases st with
    | yield v s => simp [after_body, resumes, body_flags, body_continue, yielded, hrun]
    | ret r => simp [after_body, resumes, body_flags, body_continue, yielded]
  | cons x xs ih =>
    cases st with
    | yield v s =>
      have key := ih { w with hdr := { w.hdr with _sp := .in_body s } } (w.body.resume s x) hrun
      have hy : tina_yield (after_body w (.yield v s)).1 x =
          after_body { w with hdr := { w.hdr with _sp := .in_body s } } (w.body.resume s x) := rfl
      rw [resumes_cons, hy]
      refine ⟨?_, ?_⟩
      · simp only [List.map_cons, body_flags]
        rw [key.1]
        simp [after_body, hrun]
      · simp only [body_continue]
        exact key.2
    | ret r =>
      have hd : dead (after_body w (.ret r)).1 = true := rfl
      have hr : (after_body w (.ret r)).1.hdr.running = false := rfl
      obtain ⟨-, d2, -, -, d5, -⟩ := resumes_dead (after_body w (.ret r)).1 (x :: xs) hd
      rw [d2, d5, hr]
      refine ⟨?_, ?_⟩
      · simp [body_flags, List.map_const', Function.comp_def]
      · simp [body_continue, yielded]

/-! ## The claims -/

/-- C1: the value passed to `tina_yield` on one side is the value returned by
the `tina_yield` that resumes on the other side. On every target `tina_swap`
returns, in the context it resumes, with the return register holding the value
argument it was entered with. A body that immediately yields `v` makes the
first resume return `v`; the body is called once, with the handle and the
argument of the first resume; every resume returns what the run of the body
hands over, its yielded value or its return value, and a returning body makes
that resume return the body's return value and clears `running`. -/
theorem C1_payload_identity (t : Target) (m : Machine) (S : Type) (old : tina S)
    (buffer size user_data : Nat) (b : Body S) (x v r : Nat) (s : S) (w : World S) :
    (run t (tina_swap t) m).reg (RET t) = m.reg (ARG1 t) ∧
    (tina_yield (tina_init old buffer size { b with call := fun _ _ => .yield v s } user_data).1
      x).2 = v ∧
    (tina_yield (tina_init old buffer size b user_data).1 x).1.events = [.body buffer x] ∧
    (tina_yield (tina_init old buffer size b user_data).1 x).2 = (b.call buffer x).value ∧
    (tina_yield { w with hdr := { w.hdr with _sp := .in_body s } } x).2 =
      (w.body.resume s x).value ∧
    (tina_yield (tina_init old buffer size { b with call := fun _ _ => .ret r } user_data).1 x)
      = ({ (tina_init old buffer size { b with call := fun _ _ => .ret r } user_data).1 with
            hdr := { user_data := user_data, name := 0, error_handler := 0, running := false,
                     _sp := .line63 },
            events := [.body buffer x] }, r) ∧
    (tina_yield { w with hdr := { w.hdr with _sp := .in_body s },
                         body := { w.body with resume := fun _ _ => .ret r } } x).2 = r := by
  refine ⟨tina_swap_passes_value t m, rfl, ?_, ?_, ?_, rfl, rfl⟩
  · exact after_body_events _ _
  · exact after_body_value _ _
  · exact after_body_value _ _

/-- C2: alternation. When the body, called with the first resume's argument
`x` and resumed with `xs`, yields `ys` in order and then returns `r`, the
`ys.length + 1` calls of `tina_yield` after `tina_init` return `ys` in order,
each with `running` still true, and then `r` with `running` false (so the
body's return is delivered by the last call and by no earlier one); whatever
handler is set, the only call to user code is the one call of the body. -/
theorem C2_alternation (S : Type) (old : tina S) (buffer size user_data : Nat) (b : Body S)
    (handler x : Nat) (xs ys : List Nat) (r : Nat)
    (hb : yields_then_returns b (b.call buffer x) xs ys r) :
    (resumes (set_error_handler (tina_init old buffer size b user_data).1 handler) (x :: xs)).2 =
      ys.map (fun y => (y, true)) ++ [(r, false)] ∧
    (resumes (set_error_handler (tina_init old buffer size b user_data).1 handler)
      (x :: xs)).1.events = [.body buffer x] ∧
    (x :: xs).length = ys.length + 1 := by
  have key := resumes_follow
    { set_error_handler (tina_init old buffer size b user_data).1 handler with
      events := [.body buffer x] } (b.call buffer x) xs ys r rfl hb
  rw [resumes_cons]
  exact ⟨key.1, key.2.1, by simp [key.2.2]⟩

/-- C2, the scenario: the body that receives `x`, yields `x*2`, receives `y`
and returns `y+1`, resumed with 5 and then 7, returns 10 and then 8. -/
theorem C2_alternation_witness :
    yields_then_returns scenario_body (scenario_body.call 4096 5) [7] [10] 8 ∧
    (resumes (set_error_handler (tina_init (stale_hdr Unit) 4096 65536 scenario_body 0).1 9)
      [5, 7]).2 = [(10, true), (8, false)] ∧
    (resumes (set_error_handler (tina_init (stale_hdr Unit) 4096 65536 scenario_body 0).1 9)
      [5, 7]).1.events = [.body 4096 5] ∧
    [5, 7].length = [10].length + 1 :=
  ⟨by simp [yields_then_returns, scenario_body],
   C2_alternation Unit (stale_hdr Unit) 4096 65536 0 scenario_body 9 5 [7] [10] 8
     (by simp [yields_then_returns, scenario_body])⟩

/-- C3: termination trap. Let the body have returned and its return value have
been delivered (`_sp` at line 63, `running` false). After any further resumes
`xs`, one more `tina_yield` returns 0, adds to the calls of user code exactly
one call of the configured handler with the coroutine as argument (nothing
when no handler is set), leaves `running` false and the coroutine dead; all
results so far are 0 with `running` false, and the body is not called. -/
theorem C3_termination_trap (S : Type) (w : World S) (xs : List Nat) (x : Nat)
    (hfin : w.hdr._sp = .line63) (hrun : w.hdr.running = false) :
    (tina_yield (resumes w xs).1 x).2 = 0 ∧
    (tina_yield (resumes w xs).1 x).1.events = (resumes w xs).1.events ++
      (if w.hdr.error_handler ≠ 0 then
        [.error_handler w.hdr.error_handler w.coro "Attempted to resume a dead coroutine."]
      else []) ∧
    (tina_yield (resumes w xs).1 x).1.hdr.running = false ∧
    dead (tina_yield (resumes w xs).1 x).1 = true ∧
    (resumes w (xs ++ [x])).2 = (xs ++ [x]).map (fun _ => (0, false)) ∧
    (∀ c v, Event.body c v ∈ (tina_yield (resumes w xs).1 x).1.events →
      Event.body c v ∈ w.events) := by
  have hd : dead w = true := by simp [dead, hfin]
  obtain ⟨a1, a2, a3, a4, -, a6⟩ := resumes_dead w xs hd
  have hy : tina_yield (resumes w xs).1 x = dead_loop (resumes w xs).1 := by
    unfold tina_yield tina_context
    unfold dead at a1
    split <;> simp_all
  obtain ⟨d1, d2, d3, d4, d5, d6⟩ := dead_loop_facts (resumes w xs).1
  have hall := (resumes_dead w (xs ++ [x]) hd).2.2.2.2.1
  rw [hrun] at hall
  rw [hy]
  refine ⟨d1, ?_, by rw [d3, a2, hrun], by simp [dead, d2], hall, ?_⟩
  · rw [d6, a3, a4]
  · intro c v hmem
    rw [d6, a6, a3, a4] at hmem
    by_cases h : w.hdr.error_handler = 0
    · simpa [h] using hmem
    · simp only [ne_eq, h, not_false_eq_true, if_true, List.mem_append, List.mem_replicate,
        List.mem_singleton] at hmem
      rcases hmem with (hm | hm) | hm
      · exact hm
      · exact absurd hm.2 (by simp)
      · exact absurd hm (by simp)

/-- C3, the scenario: after the two resumes that deliver 10 and 8, the third
resume and the fourth each call the handler (at address 9) once and return 0. -/
theorem C3_termination_trap_witness :
    (resumes (set_error_handler (tina_init (stale_hdr Unit) 4096 65536 scenario_body 0).1 9)
      [5, 7]).1.hdr._sp = .line63 ∧
    (tina_yield (resumes (resumes (set_error_handler
      (tina_init (stale_hdr Unit) 4096 65536 scenario_body 0).1 9) [5, 7]).1 [1]).1 2).2 = 0 ∧
    (tina_yield (resumes (resumes (set_error_handler
      (tina_init (stale_hdr Unit) 4096 65536 scenario_body 0).1 9) [5, 7]).1 [1]).1 2).1.events =
      [.body 4096 5, .error_handler 9 4096 "Attempted to resume a dead coroutine.",
        .error_handler 9 4096 "Attempted to resume a dead coroutine."] :=
  ⟨rfl,
   (C3_termination_trap Unit (resumes (set_error_handler
      (tina_init (stale_hdr Unit) 4096 65536 scenario_body 0).1 9) [5, 7]).1 [1] 2 rfl rfl).1,
   rfl⟩

/-- C4: the `running` flag, as the resumer reads it right after `tina_init`
and right after each resume. It is true right after `tina_init`. For resumes
with `x` and then `xs`, the flags read after each of them are the ones the
body alone dictates (`body_flags`): true after every resume in which the run of
the body ended in a yield, false after the resume in which the body returned
and after every later one; in particular the flag after the last resume is
true exactly when that resume came back because the body yielded. For resumes
`xs` and then one more `x`: if the coroutine side is then suspended in a yield
of the body, the flag is true; if the body has returned, it is false; one of
the two is the case; and a resume never turns a false flag true. -/
theorem C4_running_flag (S : Type) (old : tina S) (buffer size user_data : Nat) (b : Body S)
    (xs : List Nat) (x : Nat) :
    (tina_init old buffer size b user_data).1.hdr.running = true ∧
    (resumes (tina_init old buffer size b user_data).1 (x :: xs)).2.map Prod.snd =
      body_flags b (b.call buffer x) xs ∧
    (resumes (tina_init old buffer size b user_data).1 (x :: xs)).1.hdr.running =
      yielded (body_continue b (b.call buffer x) xs) ∧
    (in_body (tina_yield (resumes (tina_init old buffer size b user_data).1 xs).1 x).1 = true →
      (tina_yield (resumes (tina_init old buffer size b user_data).1 xs).1 x).1.hdr.running
        = true) ∧
    (dead (tina_yield (resumes (tina_init old buffer size b user_data).1 xs).1 x).1 = true →
      (tina_yield (resumes (tina_init old buffer size b user_data).1 xs).1 x).1.hdr.running
        = false) ∧
    (in_body (tina_yield (resumes (tina_init old buffer size b user_data).1 xs).1 x).1 = true ∨
      dead (tina_yield (resumes (tina_init old buffer size b user_data).1 xs).1 x).1 = true) ∧
    ((resumes (tina_init old buffer size b user_data).1 xs).1.hdr.running = false →
      (tina_yield (resumes (tina_init old buffer size b user_data).1 xs).1 x).1.hdr.running
        = false) := by
  have h0 : (tina_init old buffer size b user_data).1.hdr.running =
      !dead (tina_init old buffer size b user_data).1 := rfl
  have h1 := resumes_inv _ xs h0
  have h2 := tina_yield_inv _ x h1
  have key := flags_follow
    { (tina_init old buffer size b user_data).1 with events := [.body buffer x] }
    (b.call buffer x) xs rfl
  have hy : tina_yield (tina_init old buffer size b user_data).1 x =
      after_body { (tina_init old buffer size b user_data).1 with events := [.body buffer x] }
        (b.call buffer x) := rfl
  refine ⟨rfl, ?_, ?_, ?_, ?_, ?_, ?_⟩
  · rw [resumes_cons, hy]
    exact key.1
  · rw [resumes_cons, hy]
    exact key.2
  · intro hin
    rw [h2]
    unfold in_body at hin
    unfold dead
    split at hin <;> simp_all
  · intro hd
    rw [h2, hd]; rfl
  · generalize (resumes (tina_init old buffer size b user_data).1 xs).1 = w
    unfold tina_yield tina_context
    split
    · cases w.body.call w.coro x <;> simp [after_body, in_body, dead]
    · rename_i s _
      cases w.body.resume s x <;> simp [after_body, in_body, dead]
    · right; simp [dead, (dead_loop_facts w).2.1]
    · right; simp [dead, (dead_loop_facts w).2.1]
  · intro hf
    by_contra hne
    have := tina_yield_running _ x (by simpa using hne)
    rw [hf] at this
    exact absurd this (by simp)

/-- C5: `tina_init` returns the buffer's address as the handle; the header has
the given `user_data`, `running` true, `name` and `error_handler` null whatever
header `old` the buffer held; no user code has been called; the coroutine is
suspended in the first `tina_yield` of `tina_context` (line 57). -/
theorem C5_create (S : Type) (old : tina S) (buffer size user_data : Nat) (b : Body S) :
    (tina_init old buffer size b user_data).2 = buffer ∧
    (tina_init old buffer size b user_data).1.coro = buffer ∧
    (tina_init old buffer size b user_data).1.hdr.user_data = user_data ∧
    (tina_init old buffer size b user_data).1.hdr.running = true ∧
    (tina_init old buffer size b user_data).1.hdr.name = 0 ∧
    (tina_init old buffer size b user_data).1.hdr.error_handler = 0 ∧
    (tina_init old buffer size b user_data).1.events = [] ∧
    (tina_init old buffer size b user_data).1.hdr._sp = .line57 :=
  ⟨rfl, rfl, rfl, rfl, rfl, rfl, rfl, rfl⟩

/-- C7: on each target `tina_swap` pops in the reverse of the order in which
it and `tina_init_stack` push, and exchanges the stack pointer with the cursor.
Let a context enter `tina_swap` or `tina_init_stack` in state `a` with cursor
`p` (stack not wrapping, cursor away from its frame; for `tina_init_stack`
also the words written on the new stack away from its frame and from the
cursor). Then it is left suspended at `p`: the cursor holds its stack
pointer after the pushes and its frame holds the pushed operands. When later
`tina_swap` is entered in a state `b` with the same cursor, in which that
context is still suspended at `p` (and the stack of `b` is away from the frame
and the cursor), `tina_swap` returns to the return address of `a`, with the
stack pointer as after an ordinary return from the call of `a`, every pushed
operand as it was in `a`, the value of `b` in the return register, and `b`
suspended at `p`: the cursor holds the stack pointer `b` saved. -/
theorem C7_switch_restores (t : Target) (L : Layout) (a b : Machine)
    (ha1 : frame_words t * t.wordBytes ≤ a.reg t.spReg)
    (ha2 : a.reg t.spReg + t.wordBytes < t.modulus)
    (hpa : outside (a.reg (ARG2 t)) (a.reg t.spReg - frame_words t * t.wordBytes)
      (a.reg t.spReg + t.wordBytes))
    (hb1 : frame_words t * t.wordBytes ≤ b.reg t.spReg) (hb2 : b.reg t.spReg < t.modulus)
    (hcur : b.reg (ARG2 t) = a.reg (ARG2 t))
    (hpb : outside (a.reg (ARG2 t)) (b.reg t.spReg - frame_words t * t.wordBytes)
      (b.reg t.spReg + t.wordBytes))
    (hab : apart (b.reg t.spReg - frame_words t * t.wordBytes) (b.reg t.spReg)
      (a.reg t.spReg - frame_words t * t.wordBytes) (a.reg t.spReg + t.wordBytes))
    (hsus : Suspended t a b (a.reg (ARG2 t))) :
    popped (tina_swap t) = (pushed (tina_swap t)).reverse ∧
    pushed (tina_init_stack t L) = pushed (tina_swap t) ∧
    Suspended t a (run t (tina_swap t) a) (a.reg (ARG2 t)) ∧
    (boot_words t * t.wordBytes ≤ stack_top t a →
      outside (a.reg (ARG2 t)) (stack_top t a - boot_words t * t.wordBytes) (stack_top t a) →
      apart (stack_top t a - boot_words t * t.wordBytes) (stack_top t a)
        (a.reg t.spReg - frame_words t * t.wordBytes) (a.reg t.spReg + t.wordBytes) →
      Suspended t a (run t (tina_init_stack t L) a) (a.reg (ARG2 t))) ∧
    (run t (tina_swap t) b).pc = return_address t a ∧
    (run t (tina_swap t) b).reg t.spReg = sp_after_return t a ∧
    (∀ x ∈ pushed (tina_swap t), (run t (tina_swap t) b).read x = a.read x) ∧
    (run t (tina_swap t) b).reg (RET t) = b.reg (ARG1 t) ∧
    Suspended t b (run t (tina_swap t) b) (a.reg (ARG2 t)) ∧
    (run t (tina_swap t) b).mem (a.reg (ARG2 t)) =
      b.reg t.spReg - frame_words t * t.wordBytes := by
  have hw := wordBytes_pos t
  have r := tina_swap_resumes t a b (a.reg (ARG2 t)) ha1 ha2 hb1 hb2 hcur hsus hpa hpb hab
  exact ⟨popped_tina_swap t, pushed_tina_init_stack t L,
    tina_swap_suspends t a ha1 (by omega) hpa,
    fun hn hnp hna => tina_init_stack_suspends t L a ha1 (by omega) hpa hn hnp hna,
    r.1, r.2.1, r.2.2.1, r.2.2.2.1, r.2.2.2.2, r.2.2.2.2.1⟩

/-- C7, on System V: the resumer `demo_resumer` switches away (by `tina_swap`,
or by `tina_init_stack` with the new stack top 0x11000); the coroutine
side, with other values in every register, switches back on the same cursor;
the resumer continues at its return address 0x400123 with its stack pointer and
its `rbx` and `r15`, and the cursor holds the stack pointer the coroutine side
saved. -/
theorem C7_switch_restores_witness :
    Suspended .amd64_unix demo_resumer
      (demo_coroutine (run .amd64_unix (tina_swap .amd64_unix) demo_resumer).mem) 0x10020 ∧
    Suspended .amd64_unix demo_resumer
      (run .amd64_unix (tina_init_stack .amd64_unix demo_layout) demo_resumer)
      (demo_resumer.reg (ARG2 .amd64_unix)) ∧
    (run .amd64_unix (tina_swap .amd64_unix)
      (demo_coroutine (run .amd64_unix (tina_swap .amd64_unix) demo_resumer).mem)).pc =
        return_address .amd64_unix demo_resumer ∧
    return_address .amd64_unix demo_resumer = 0x400123 ∧
    (run .amd64_unix (tina_swap .amd64_unix)
      (demo_coroutine (run .amd64_unix (tina_swap .amd64_unix) demo_resumer).mem)).reg .rsp =
        sp_after_return .amd64_unix demo_resumer ∧
    sp_after_return .amd64_unix demo_resumer = 0x7f008 ∧
    (run .amd64_unix (tina_swap .amd64_unix)
      (demo_coroutine (run .amd64_unix (tina_swap .amd64_unix) demo_resumer).mem)).reg
        (RET .amd64_unix) = 77 ∧
    (run .amd64_unix (tina_swap .amd64_unix)
      (demo_coroutine (run .amd64_unix (tina_swap .amd64_unix) demo_resumer).mem)).mem 0x10020 =
        0x10f00 - 6 * 8 :=
  have ha1 : frame_words .amd64_unix * Target.amd64_unix.wordBytes ≤
      demo_resumer.reg Target.amd64_unix.spReg := by decide
  have hpa : outside (demo_resumer.reg (ARG2 .amd64_unix))
      (demo_resumer.reg Target.amd64_unix.spReg -
        frame_words .amd64_unix * Target.amd64_unix.wordBytes)
      (demo_resumer.reg Target.amd64_unix.spReg + Target.amd64_unix.wordBytes) := by
    unfold outside; decide
  have hsus : Suspended .amd64_unix demo_resumer
      (demo_coroutine (run .amd64_unix (tina_swap .amd64_unix) demo_resumer).mem)
      (demo_resumer.reg (ARG2 .amd64_unix)) :=
    suspended_congr .amd64_unix demo_resumer _ _ _ rfl
      (tina_swap_suspends .amd64_unix demo_resumer ha1 (by decide) hpa)
  have h := C7_switch_restores .amd64_unix demo_layout demo_resumer
    (demo_coroutine (run .amd64_unix (tina_swap .amd64_unix) demo_resumer).mem)
    ha1 (by decide) hpa
    (by decide) (by decide) (by decide)
    (by unfold outside; decide) (by unfold apart; decide) hsus
  ⟨hsus,
    h.2.2.2.1
      (by rw [show stack_top .amd64_unix demo_resumer = 0x11000 from by decide]; decide)
      (by rw [show stack_top .amd64_unix demo_resumer = 0x11000 from by decide]
          unfold outside; decide)
      (by rw [show stack_top .amd64_unix demo_resumer = 0x11000 from by decide]
          unfold apart; decide),
    h.2.2.2.2.1, by decide, h.2.2.2.2.2.1, by decide, h.2.2.2.2.2.2.2.1,
    h.2.2.2.2.2.2.2.2.2⟩

/-- C8: the registers `tina_swap` saves, against the registers a callee must
preserve. On System V they coincide. On Win64 and on ARM the integer registers
are saved, but `xmm6`-`xmm15` (Win64) and `d8`-`d15` (ARM with hardware
floating point) are required and not saved: when `tina_swap` returns into the
context it resumes, these registers hold what the context that called
`tina_swap` left in them, not what the resumed context had. -/
theorem C8_saved_registers (m : Machine) (i : Nat) (hard_float : Bool) :
    (∀ r, r ∈ callee_saved .amd64_unix hard_float ↔
      Slot.reg r ∈ pushed (tina_swap .amd64_unix)) ∧
    (∀ r ∈ [Reg.rbx, .rbp, .rsi, .rdi, .r12, .r13, .r14, .r15],
      Slot.reg r ∈ pushed (tina_swap .win64)) ∧
    (∀ k < 10, Reg.xmm (6 + k) ∈ callee_saved .win64 hard_float ∧
      Slot.reg (.xmm (6 + k)) ∉ pushed (tina_swap .win64)) ∧
    (run .win64 (tina_swap .win64) m).reg (.xmm i) = m.reg (.xmm i) ∧
    (∀ r ∈ [Reg.r4, .r5, .r6, .r7, .r8, .r9, .r10, .r11],
      Slot.reg r ∈ pushed (tina_swap .arm_eabi)) ∧
    (∀ k < 8, Reg.d (8 + k) ∈ callee_saved .arm_eabi true ∧
      Slot.reg (.d (8 + k)) ∉ pushed (tina_swap .arm_eabi)) ∧
    (run .arm_eabi (tina_swap .arm_eabi) m).reg (.d i) = m.reg (.d i) := by
  refine ⟨?_, ?_, ?_, ?_, ?_, ?_, ?_⟩
  · intro r
    rw [pushed_tina_swap]
    simp only [callee_saved, List.mem_cons, List.mem_singleton, Slot.reg.injEq,
      List.not_mem_nil, or_false]
    tauto
  · rw [pushed_tina_swap]; decide
  · rw [pushed_tina_swap]
    cases hard_float <;> decide
  · exact tina_swap_leaves .win64 m (.xmm i) (by rw [pushed_tina_swap]; simp) (by simp [Target.spReg])
      (by simp [TMP]) (by simp [RET])
  · rw [pushed_tina_swap]; decide
  · rw [pushed_tina_swap]; decide
  · exact tina_swap_leaves .arm_eabi m (.d i) (by rw [pushed_tina_swap]; simp)
      (by simp [Target.spReg]) (by simp [TMP]) (by simp [RET])

/-- C9 on Win64, for a buffer of 0x1000 bytes at 0x10000: the new stack top is
0x11000, a multiple of 16; but `tina_context` is entered with `rsp` = 0x10ff0,
so that `rsp + 8` is 8 modulo 16 and not a multiple of 16, and the return
address at `[rsp]` is the address after `call tina_context`, not 0. -/
theorem C9_win64_entry_frame :
    stack_top .win64 demo_win64_init = 0x11000 ∧
    (run .win64 (tina_init_stack .win64 demo_layout) demo_win64_init).pc
      = demo_layout.tina_context ∧
    (run .win64 (tina_init_stack .win64 demo_layout) demo_win64_init).reg .rsp = 0x10ff0 ∧
    ((run .win64 (tina_init_stack .win64 demo_layout) demo_win64_init).reg .rsp + 8) % 16 = 8 ∧
    ¬ entry_aligned .win64
      ((run .win64 (tina_init_stack .win64 demo_layout) demo_win64_init).reg .rsp) ∧
    return_address .win64 (run .win64 (tina_init_stack .win64 demo_layout) demo_win64_init)
      = 0x401234 := by
  have htop : stack_top .win64 demo_win64_init = 0x11000 := by decide
  have hroom : boot_words .win64 * Target.win64.wordBytes ≤ stack_top .win64 demo_win64_init := by
    rw [htop]; decide
  have e := tina_init_stack_enters .win64 demo_layout demo_win64_init hroom
  have f := (bootstrap_frame .win64 demo_layout demo_win64_init (by decide) hroom).2.2.2.2 rfl
  rw [htop] at e
  exact ⟨htop, e.1, e.2.1, f.1, f.2.1, f.2.2⟩

/-- C10 on Win64, for a buffer of 0x1000 bytes at 0x10000 in a thread whose
stack base, stack limit and deallocation stack are 0x80000, 0x70000 and
0x60000: when `tina_init_stack` enters `tina_context`, the stack base `gs:0x8`
holds 0x10000, the low address of the region, and not the aligned top 0x11000;
the stack limit `gs:0x10` and the deallocation stack `gs:0x1478` still hold the
thread's 0x70000 and 0x60000. All three `mov` of the source write `gs:0x8`.
`tina_swap` does push and pop the three fields. -/
theorem C10_win64_stack_bounds :
    stack_top .win64 demo_win64_init = 0x11000 ∧
    demo_win64_init.reg (ARG0 .win64) = 0x10000 ∧
    (run .win64 (tina_init_stack .win64 demo_layout) demo_win64_init).gs 0x8 = 0x10000 ∧
    (run .win64 (tina_init_stack .win64 demo_layout) demo_win64_init).gs 0x10 = 0x70000 ∧
    (run .win64 (tina_init_stack .win64 demo_layout) demo_win64_init).gs 0x1478 = 0x60000 ∧
    (∀ x ∈ [Slot.gs 0x8, .gs 0x10, .gs 0x1478],
      x ∈ pushed (tina_swap .win64) ∧ x ∈ popped (tina_swap .win64)) := by
  have htop : stack_top .win64 demo_win64_init = 0x11000 := by decide
  have hroom : boot_words .win64 * Target.win64.wordBytes ≤ stack_top .win64 demo_win64_init := by
    rw [htop]; decide
  have e := (tina_init_stack_enters .win64 demo_layout demo_win64_init hroom).2.2.2.2.2 rfl
  refine ⟨htop, by decide, e.2.1, e.2.2.1, e.2.2.2, ?_⟩
  rw [popped_tina_swap, pushed_tina_swap]
  decide

end Tina
